import Mathlib

/-!
Verification of the Growcado JS SDK tracking & storage coordination core
(`packages/sdk/src/lib/storage/StorageManager.ts`,
`packages/sdk/src/lib/tracking/UTMTracker.ts`,
`packages/sdk/src/lib/tracking/ReferrerTracker.ts`,
`packages/sdk/src/lib/tracking/CustomerIdentifierManager.ts`,
and the coordinator class `GrowcadoSDKClass`).

Modelling conventions:
* JS strings are Lean `String`s (sequences of Unicode scalar values).
* The mutable browser world (presence of `window`/`document`, the current
  URL, `document.referrer`, and the DOM `localStorage` contents) is an
  explicit `World` value threaded through each operation.
* A `localStorage.setItem` call may throw (e.g. quota exceeded); this is
  modelled by the per-key failure oracle `JSEnv.writeFails`.  Fallible
  operations return `Except Unit`.
* JS `Map`s and plain objects are association lists
  (`List (String × α)`) in property insertion order; assignment to an
  existing key updates it in place, a new key is appended — matching JS
  property-order semantics.
* `undefined` property values are modelled as `Option.none`.
-/

set_option maxRecDepth 4096

/-- Lookup in an association list (leftmost binding wins, as for JS objects
whose keys are unique). -/
def assocLookup (l : List (String × String)) (k : String) : Option String :=
  (l.find? (fun p => p.1 = k)).map (fun p => p.2)

/-- JS object/Map assignment: update the binding in place when the key is
already present, otherwise append the new binding. -/
def assocInsert (l : List (String × String)) (k v : String) :
    List (String × String) :=
  match l with
  | [] => [(k, v)]
  | (k', v') :: rest =>
    if k' = k then (k', v) :: rest else (k', v') :: assocInsert rest k v

/-- Removal of a key (JS `localStorage.removeItem` / `delete`). -/
def assocRemove (l : List (String × String)) (k : String) :
    List (String × String) :=
  l.filter (fun p => p.1 ≠ k)

/-- Variant of `assocLookup` for maps whose values may be `undefined`. -/
def assocLookupOpt (l : List (String × Option String)) (k : String) :
    Option (Option String) :=
  (l.find? (fun p => p.1 = k)).map (fun p => p.2)

/-- Variant of `assocInsert` for maps whose values may be `undefined`. -/
def assocInsertOpt (l : List (String × Option String)) (k : String)
    (v : Option String) : List (String × Option String) :=
  match l with
  | [] => [(k, v)]
  | (k', v') :: rest =>
    if k' = k then (k', v) :: rest else (k', v') :: assocInsertOpt rest k v

/-- JS object spread `\x7b...a, ...b\x7d`: start from `a` and assign every
binding of `b` in order. -/
def assocMergeOpt (a b : List (String × Option String)) :
    List (String × Option String) :=
  b.foldl (fun acc p => assocInsertOpt acc p.1 p.2) a

/-- Join a list of strings with a separator (JS `Array.prototype.join`). -/
def joinSep (sep : String) : List String → String
  | [] => ""
  | [s] => s
  | s :: rest => s ++ sep ++ joinSep sep rest

/-! ## The browser world -/

/-- The ambient browser environment: which globals exist, the current
page's URL parts, the document referrer, and a per-key oracle saying
whether a `localStorage.setItem` for that key throws (quota, privacy
mode, ...). -/
structure JSEnv where
  windowPresent : Bool
  documentPresent : Bool
  locationSearch : String
  locationHref : String
  docReferrer : String
  writeFails : String → Bool

/-- The mutable browser state: the environment plus the DOM
`localStorage` contents. -/
structure World where
  env : JSEnv
  localStorageData : List (String × String)

/-- The `localStorage.getItem` (never throws in this model). -/
def domLsGetItem (w : World) (k : String) : Option String :=
  assocLookup w.localStorageData k

/-- The `localStorage.setItem`; throws exactly when the environment's failure
oracle says writing this key fails. -/
def domLsSetItem (w : World) (k v : String) : Except Unit World :=
  if w.env.writeFails k then .error ()
  else .ok { w with localStorageData := assocInsert w.localStorageData k v }

/-- The `localStorage.removeItem`. -/
def domLsRemoveItem (w : World) (k : String) : World :=
  { w with localStorageData := assocRemove w.localStorageData k }

/-! ## SDK configuration (`core/types.ts`) -/

/-- The `storage` field of `SDKConfig`: `'localStorage' | 'memory' | 'auto'`. -/
inductive StorageOpt | localStorage | memory | auto
deriving DecidableEq, Repr

/-- The two backends a `StorageManager` can resolve to. -/
inductive StorageType | localStorage | memory
deriving DecidableEq, Repr

/-- The `SDKConfig` (optional fields are `Option`; `none` = property absent or
`undefined`). -/
structure SDKConfig where
  tenantId : String := ""
  baseURL : Option String := none
  enableAutoUTM : Option Bool := none
  enableReferrerTracking : Option Bool := none
  storage : Option StorageOpt := none
  ssrMode : Option Bool := none
  hydrateOnMount : Option Bool := none

/-! ## StorageManager (`storage/StorageManager.ts`) -/

/-- The mutable fields of a `StorageManager` instance. -/
structure StorageManager where
  storageType : StorageType
  memoryStorage : List (String × String)

namespace StorageManager

/-- The `canUseLocalStorage`: probe by writing then removing the sentinel key
`growcado_test`; any exception means unavailable.  Returns the probe
result together with the (possibly changed) world. -/
def canUseLocalStorage (w : World) : Bool × World :=
  if w.env.windowPresent = false then (false, w)
  else
    match domLsSetItem w "growcado_test" "test" with
    | .ok w' => (true, domLsRemoveItem w' "growcado_test")
    | .error _ => (false, w)

/-- The `detectOptimalStorage`. -/
def detectOptimalStorage (w : World) : StorageType × World :=
  if w.env.windowPresent = false then (.memory, w)
  else
    let (can, w') := canUseLocalStorage w
    (if can then .localStorage else .memory, w')

/-- The `resolveStorageType`: JS `config.storage || 'localStorage'` defaulting,
then the SSR check, then the `auto` probe, then validation of an explicit
`localStorage` request. -/
def resolveStorageType (config : SDKConfig) (w : World) : StorageType × World :=
  let requestedStorage := config.storage.getD .localStorage
  if config.ssrMode = some true then (.memory, w)
  else if requestedStorage = .auto then detectOptimalStorage w
  else if requestedStorage = .localStorage then
    let (can, w') := canUseLocalStorage w
    (if can then .localStorage else .memory, w')
  else (.memory, w)

/-- The constructor: fresh empty memory map, resolved storage type. -/
def new (config : SDKConfig) (w : World) : StorageManager × World :=
  let (t, w') := resolveStorageType config w
  ({ storageType := t, memoryStorage := [] }, w')

/-- The `getItem`. -/
def getItem (sm : StorageManager) (w : World) (k : String) : Option String :=
  if sm.storageType = .localStorage ∧ w.env.windowPresent then
    domLsGetItem w k
  else assocLookup sm.memoryStorage k

/-- The `setItem`.  Note the persistent branch forwards directly to
`localStorage.setItem` with no `try`/`catch`, so a backend write failure
propagates to the caller. -/
def setItem (sm : StorageManager) (w : World) (k v : String) :
    Except Unit (StorageManager × World) :=
  if sm.storageType = .localStorage ∧ w.env.windowPresent then
    match domLsSetItem w k v with
    | .ok w' => .ok (sm, w')
    | .error e => .error e
  else
    .ok ({ sm with memoryStorage := assocInsert sm.memoryStorage k v }, w)

/-- The three fixed tracking keys removed by `clear` on the persistent
backend and copied by a persistent→transient migration. -/
def trackingKeys : List String :=
  ["cxp_utm_params", "cxp_initial_referrer", "cxp_customer_identifiers"]

/-- The `clear`. -/
def clear (sm : StorageManager) (w : World) : StorageManager × World :=
  if sm.storageType = .localStorage ∧ w.env.windowPresent then
    (sm, trackingKeys.foldl (fun acc k => domLsRemoveItem acc k) w)
  else ({ sm with memoryStorage := [] }, w)

/-- The `updateStorageType`. -/
def updateStorageType (sm : StorageManager) (t : StorageType) : StorageManager :=
  { sm with storageType := t }

/-- The `memoryStorage.forEach` loop of `migrateToStorage`: write the
entries to `localStorage` one at a time; on the first throwing write stop,
keeping the writes already performed (the `try` wraps the whole loop). -/
def writeEntries : List (String × String) → World → World × Bool
  | [], w => (w, true)
  | (k, v) :: rest, w =>
    match domLsSetItem w k v with
    | .ok w' => writeEntries rest w'
    | .error _ => (w, false)

/-- The `migrateToStorage`. -/
def migrateToStorage (sm : StorageManager) (w : World) (newStorageType : StorageType) :
    StorageManager × World :=
  if sm.storageType = newStorageType then (sm, w)
  else
    -- memory → localStorage: copy every entry, then empty the memory map;
    -- on a write failure warn and return early (backend unchanged).
    if sm.storageType = .memory ∧ newStorageType = .localStorage ∧
        w.env.windowPresent then
      let (w', ok) := writeEntries sm.memoryStorage w
      if ok then
        ({ storageType := newStorageType, memoryStorage := [] }, w')
      else (sm, w')
    else
      -- localStorage → memory: copy the three known tracking keys whose
      -- stored value is truthy (non-null and non-empty).
      if sm.storageType = .localStorage ∧ newStorageType = .memory ∧
          w.env.windowPresent then
        let mem := trackingKeys.foldl
          (fun acc k =>
            match domLsGetItem w k with
            | some v => if v ≠ "" then assocInsert acc k v else acc
            | none => acc)
          sm.memoryStorage
        ({ storageType := newStorageType, memoryStorage := mem }, w)
      else ({ sm with storageType := newStorageType }, w)

/-- The `hydrateStorage`: upgrade memory → localStorage when possible. -/
def hydrateStorage (sm : StorageManager) (w : World) :
    Bool × StorageManager × World :=
  if sm.storageType = .memory then
    let (can, w') := canUseLocalStorage w
    if can then
      let (sm', w'') := migrateToStorage sm w' .localStorage
      (true, sm', w'')
    else (false, sm, w')
  else (false, sm, w)

/-- The `getCurrentStorageType`. -/
def getCurrentStorageType (sm : StorageManager) : StorageType :=
  sm.storageType

/-- The `isHydrationCapable`. -/
def isHydrationCapable (sm : StorageManager) (w : World) : Bool × World :=
  if sm.storageType = .memory then canUseLocalStorage w
  else (false, w)

end StorageManager

/-! ## Host string primitives

`encodeURIComponent`, `decodeURIComponent`, `URLSearchParams`,
`String.prototype.trim` and `JSON.parse`/`JSON.stringify` are web-platform
primitives called by the SDK; they are modelled here at the level of
Unicode scalar sequences (UTF-8 byte work made explicit). -/

/-- Uppercase hexadecimal digit for a nibble (as emitted by
`encodeURIComponent`). -/
def hexDigitChar (n : Nat) : Char :=
  if n < 10 then Char.ofNat (48 + n)          -- '0'..'9'
  else Char.ofNat (65 + (n - 10))             -- 'A'..'F'

/-- Numeric value of a hexadecimal digit character (upper or lower case);
`none` when the character is not a hex digit. -/
def hexVal (c : Char) : Option Nat :=
  if 48 ≤ c.toNat ∧ c.toNat ≤ 57 then some (c.toNat - 48)
  else if 65 ≤ c.toNat ∧ c.toNat ≤ 70 then some (c.toNat - 65 + 10)
  else if 97 ≤ c.toNat ∧ c.toNat ≤ 102 then some (c.toNat - 97 + 10)
  else none

/-- The UTF-8 bytes of one Unicode scalar value. -/
def utf8EncodeChar (c : Char) : List Nat :=
  let n := c.toNat
  if n < 0x80 then [n]
  else if n < 0x800 then [0xC0 + n / 64, 0x80 + n % 64]
  else if n < 0x10000 then
    [0xE0 + n / 4096, 0x80 + n / 64 % 64, 0x80 + n % 64]
  else
    [0xF0 + n / 262144, 0x80 + n / 4096 % 64, 0x80 + n / 64 % 64,
     0x80 + n % 64]

/-- UTF-8 bytes of a scalar-value sequence. -/
def utf8EncodeList (s : List Char) : List Nat :=
  s.flatMap utf8EncodeChar

/-- The characters `encodeURIComponent` leaves unescaped:
`A–Z a–z 0–9 - _ . ! ~ * ' ( )`. -/
def uriUnreserved (c : Char) : Bool :=
  (65 ≤ c.toNat ∧ c.toNat ≤ 90) ∨ (97 ≤ c.toNat ∧ c.toNat ≤ 122) ∨
  (48 ≤ c.toNat ∧ c.toNat ≤ 57) ∨
  c = '-' ∨ c = '_' ∨ c = '.' ∨ c = '!' ∨ c = '~' ∨ c = '*' ∨
  c = Char.ofNat 39 ∨ c = '(' ∨ c = ')'

/-- The `%XX` escape of one byte (uppercase hex). -/
def percentByte (b : Nat) : List Char :=
  ['%', hexDigitChar (b / 16), hexDigitChar (b % 16)]

/-- One character's contribution to `encodeURIComponent`: unreserved
characters pass through, every other character becomes the `%XX` escapes
of its UTF-8 bytes. -/
def uriEncodeChar (c : Char) : List Char :=
  if uriUnreserved c then [c] else (utf8EncodeChar c).flatMap percentByte

/-- The `encodeURIComponent` on a scalar sequence. -/
def encodeURIComponentList (s : List Char) : List Char :=
  s.flatMap uriEncodeChar

/-- The `encodeURIComponent`. -/
def encodeURIComponent (s : String) : String :=
  ⟨encodeURIComponentList s.data⟩

/-- Lenient percent-decoding on bytes, as performed by
`application/x-www-form-urlencoded` parsing: a `%` followed by two hex
digits becomes the denoted byte; any other `%` is kept literally. -/
def percentDecodeLenientFuel : Nat → List Nat → List Nat
  | 0, _ => []
  | _ + 1, [] => []
  | fuel + 1, b :: rest =>
    if b = 37 then
      match rest with
      | c1 :: c2 :: rest2 =>
        match hexVal (Char.ofNat c1), hexVal (Char.ofNat c2) with
        | some h1, some h2 =>
          (h1 * 16 + h2) :: percentDecodeLenientFuel fuel rest2
        | _, _ => 37 :: percentDecodeLenientFuel fuel rest
      | _ => 37 :: percentDecodeLenientFuel fuel rest
    else b :: percentDecodeLenientFuel fuel rest

/-- Lenient percent-decoding on bytes. -/
def percentDecodeLenient (bs : List Nat) : List Nat :=
  percentDecodeLenientFuel bs.length bs

/-- Is `b` a UTF-8 continuation byte? -/
def isCont (b : Nat) : Bool := 0x80 ≤ b ∧ b ≤ 0xBF

/-- One step of UTF-8 decoding: the scalar value at the head of the byte
list together with the number of bytes it occupies, or `none` when the
head does not start a valid (shortest-form, non-surrogate) sequence. -/
def utf8DecodeStep : List Nat → Option (Nat × Nat)
  | b0 :: rest =>
    if b0 < 0x80 then some (b0, 1)
    else if 0xC2 ≤ b0 ∧ b0 ≤ 0xDF then
      match rest with
      | b1 :: _ =>
        if isCont b1 then some ((b0 - 0xC0) * 64 + (b1 - 0x80), 2) else none
      | [] => none
    else if 0xE0 ≤ b0 ∧ b0 ≤ 0xEF then
      match rest with
      | b1 :: b2 :: _ =>
        if isCont b1 ∧ isCont b2 ∧
            (b0 ≠ 0xE0 ∨ 0xA0 ≤ b1) ∧ (b0 ≠ 0xED ∨ b1 ≤ 0x9F) then
          some ((b0 - 0xE0) * 4096 + (b1 - 0x80) * 64 + (b2 - 0x80), 3)
        else none
      | _ => none
    else if 0xF0 ≤ b0 ∧ b0 ≤ 0xF4 then
      match rest with
      | b1 :: b2 :: b3 :: _ =>
        if isCont b1 ∧ isCont b2 ∧ isCont b3 ∧
            (b0 ≠ 0xF0 ∨ 0x90 ≤ b1) ∧ (b0 ≠ 0xF4 ∨ b1 ≤ 0x8F) then
          some ((b0 - 0xF0) * 262144 + (b1 - 0x80) * 4096 +
                (b2 - 0x80) * 64 + (b3 - 0x80), 4)
        else none
      | _ => none
    else none
  | [] => none

/-- The replacement character U+FFFD. -/
def replacementChar : Char := Char.ofNat 0xFFFD

/-- Fuel-indexed UTF-8 decoding with replacement: a byte that does not
start a valid sequence yields U+FFFD and one byte is consumed (the
replacement granularity of the WHATWG "maximal subpart" rule is
approximated; it never differs on valid UTF-8 input, the only case the
SDK produces). -/
def utf8DecodeReplaceFuel : Nat → List Nat → List Char
  | 0, _ => []
  | _, [] => []
  | fuel + 1, b :: rest =>
    match utf8DecodeStep (b :: rest) with
    | some (n, len) =>
      Char.ofNat n :: utf8DecodeReplaceFuel fuel (List.drop (len - 1) rest)
    | none => replacementChar :: utf8DecodeReplaceFuel fuel rest

/-- UTF-8 decoding with replacement. -/
def utf8DecodeReplace (bs : List Nat) : List Char :=
  utf8DecodeReplaceFuel bs.length bs

/-- The `+` means space in `application/x-www-form-urlencoded`. -/
def plusToSpace (s : List Char) : List Char :=
  s.map (fun c => if c = '+' then ' ' else c)

/-- The `application/x-www-form-urlencoded` decoding of one token, as
`URLSearchParams` applies it to names and values: `+`→space, then
percent-decode the UTF-8 bytes leniently, then UTF-8-decode with
replacement. -/
def formUrlDecode (s : String) : String :=
  ⟨utf8DecodeReplace (percentDecodeLenient (utf8EncodeList (plusToSpace s.data)))⟩

/-- Split a character list at every occurrence of `sep`. -/
def splitOnChar (sep : Char) : List Char → List (List Char)
  | [] => [[]]
  | c :: rest =>
    let r := splitOnChar sep rest
    if c = sep then [] :: r
    else
      match r with
      | h :: t => (c :: h) :: t
      | [] => [[c]]

/-- Split a character list at the first occurrence of `sep`; when `sep`
does not occur the second component is empty. -/
def splitFirst (sep : Char) : List Char → List Char × List Char
  | [] => ([], [])
  | c :: rest =>
    if c = sep then ([], rest)
    else
      let (a, b) := splitFirst sep rest
      (c :: a, b)

/-- The `new URLSearchParams(s)` followed by iteration: strip one leading `?`,
split on `&` discarding empty segments, split each segment at the first
`=` (missing `=` means empty value), and form-url-decode names and
values.  Duplicate names are kept as separate entries in order, as
`URLSearchParams.forEach` visits them. -/
def urlSearchParamsParse (s : String) : List (String × String) :=
  let cs := if s.data.head? = some '?' then s.data.tail else s.data
  ((splitOnChar '&' cs).filter (fun seg => seg ≠ [])).map (fun seg =>
    let (k, v) := splitFirst '=' seg
    (formUrlDecode ⟨k⟩, formUrlDecode ⟨v⟩))

/-- Fuel-indexed ECMA-262 `Decode` (the core of `decodeURIComponent`,
with an empty reserved set): a `%` must be followed by two hex digits;
a decoded byte with the high bit set must begin a valid UTF-8 sequence
whose continuation bytes are themselves given by `%XX` escapes; any
violation throws `URIError` (here: `none`). -/
def decodeURIComponentFuel : Nat → List Char → Option (List Char)
  | 0, [] => some []
  | 0, _ :: _ => none
  | _ + 1, [] => some []
  | fuel + 1, c :: rest =>
    if c ≠ '%' then (decodeURIComponentFuel fuel rest).map (fun t => c :: t)
    else
    match rest with
    | c1 :: c2 :: rest2 =>
      match hexVal c1, hexVal c2 with
      | some h1, some h2 =>
        let b0 := h1 * 16 + h2
        if b0 < 0x80 then
          (decodeURIComponentFuel fuel rest2).map (fun t => Char.ofNat b0 :: t)
        else
          -- multi-byte sequence: the continuation bytes must come from
          -- further `%XX` escapes
          match rest2 with
          | '%' :: d1 :: d2 :: rest3 =>
            match hexVal d1, hexVal d2 with
            | some e1, some e2 =>
              let b1 := e1 * 16 + e2
              if 0xC2 ≤ b0 ∧ b0 ≤ 0xDF then
                if isCont b1 then
                  (decodeURIComponentFuel fuel rest3).map
                    (fun t => Char.ofNat ((b0 - 0xC0) * 64 + (b1 - 0x80)) :: t)
                else none
              else
                match rest3 with
                | '%' :: f1 :: f2 :: rest4 =>
                  match hexVal f1, hexVal f2 with
                  | some g1, some g2 =>
                    let b2 := g1 * 16 + g2
                    if 0xE0 ≤ b0 ∧ b0 ≤ 0xEF then
                      if isCont b1 ∧ isCont b2 ∧
                          (b0 ≠ 0xE0 ∨ 0xA0 ≤ b1) ∧ (b0 ≠ 0xED ∨ b1 ≤ 0x9F) then
                        (decodeURIComponentFuel fuel rest4).map
                          (fun t => Char.ofNat ((b0 - 0xE0) * 4096 +
                            (b1 - 0x80) * 64 + (b2 - 0x80)) :: t)
                      else none
                    else
                      match rest4 with
                      | '%' :: g1' :: g2' :: rest5 =>
                        match hexVal g1', hexVal g2' with
                        | some i1, some i2 =>
                          let b3 := i1 * 16 + i2
                          if 0xF0 ≤ b0 ∧ b0 ≤ 0xF4 then
                            if isCont b1 ∧ isCont b2 ∧ isCont b3 ∧
                                (b0 ≠ 0xF0 ∨ 0x90 ≤ b1) ∧ (b0 ≠ 0xF4 ∨ b1 ≤ 0x8F) then
                              (decodeURIComponentFuel fuel rest5).map
                                (fun t => Char.ofNat ((b0 - 0xF0) * 262144 +
                                  (b1 - 0x80) * 4096 + (b2 - 0x80) * 64 +
                                  (b3 - 0x80)) :: t)
                            else none
                          else none
                        | _, _ => none
                      | _ => none
                  | _, _ => none
                | _ => none
            | _, _ => none
          | _ => none
      | _, _ => none
    | _ => none

/-- The `decodeURIComponent`; `none` models a thrown `URIError`. -/
def decodeURIComponentOpt (s : String) : Option String :=
  (decodeURIComponentFuel s.data.length s.data).map (fun l => ⟨l⟩)

/-- The whitespace characters trimmed by `String.prototype.trim`
(ASCII whitespace, NBSP, BOM, and the Unicode line/paragraph
separators; the less common Unicode space separators are omitted as they
never arise here). -/
def jsWhitespace (c : Char) : Bool :=
  c = ' ' ∨ c = Char.ofNat 9 ∨ c = Char.ofNat 10 ∨ c = Char.ofNat 11 ∨
  c = Char.ofNat 12 ∨ c = Char.ofNat 13 ∨ c = Char.ofNat 0xA0 ∨
  c = Char.ofNat 0x2028 ∨ c = Char.ofNat 0x2029 ∨ c = Char.ofNat 0xFEFF

/-- The `String.prototype.trim`. -/
def jsTrim (s : String) : String :=
  ⟨((s.data.dropWhile jsWhitespace).reverse.dropWhile jsWhitespace).reverse⟩

/-! ### JSON (flat string objects)

The SDK serializes customer identifiers with `JSON.stringify` (dropping
`undefined`-valued properties) and reads them back with `JSON.parse`.
The only JSON values it ever writes are flat objects mapping strings to
strings, so `JSON.parse` is modelled for exactly that sub-grammar;
any other input (including valid JSON of a different shape) is mapped to
the parse-failure branch. -/

/-- JSON string escaping as produced by `JSON.stringify`. -/
def jsonQuoteChar (c : Char) : List Char :=
  if c = '"' then ['\\', '"']
  else if c = '\\' then ['\\', '\\']
  else if c = Char.ofNat 10 then ['\\', 'n']
  else if c = Char.ofNat 13 then ['\\', 'r']
  else if c = Char.ofNat 9 then ['\\', 't']
  else if c = Char.ofNat 8 then ['\\', 'b']
  else if c = Char.ofNat 12 then ['\\', 'f']
  else if c.toNat < 0x20 then
    ['\\', 'u', '0', '0', hexDigitChar (c.toNat / 16), hexDigitChar (c.toNat % 16)]
  else [c]

/-- A JSON string literal for `s`. -/
def jsonQuote (s : String) : String :=
  ⟨'"' :: s.data.flatMap jsonQuoteChar ++ ['"']⟩

/-- The `JSON.stringify` of an identifier map: `undefined`-valued properties
are dropped, the rest appear in property order with no whitespace. -/
def jsonStringifyFlatObj (ids : List (String × Option String)) : String :=
  let entries := ids.filterMap (fun p =>
    p.2.map (fun v => jsonQuote p.1 ++ ":" ++ jsonQuote v))
  ⟨Char.ofNat 123 :: (joinSep "," entries).data ++ [Char.ofNat 125]⟩

/-- Fuel-indexed parser for a JSON string literal body (after the opening
quote): returns the decoded characters and the input following the
closing quote. -/
def jsonParseStringBody : Nat → List Char → Option (List Char × List Char)
  | 0, _ => none
  | _ + 1, [] => none
  | fuel + 1, c :: rest =>
    if c = '"' then some ([], rest)
    else if c = '\\' then
      match rest with
      | [] => none
      | e :: rest2 =>
        if e = '"' ∨ e = '\\' ∨ e = '/' then
          (jsonParseStringBody fuel rest2).map (fun (s, r) => (e :: s, r))
        else if e = 'n' then
          (jsonParseStringBody fuel rest2).map (fun (s, r) => (Char.ofNat 10 :: s, r))
        else if e = 'r' then
          (jsonParseStringBody fuel rest2).map (fun (s, r) => (Char.ofNat 13 :: s, r))
        else if e = 't' then
          (jsonParseStringBody fuel rest2).map (fun (s, r) => (Char.ofNat 9 :: s, r))
        else if e = 'b' then
          (jsonParseStringBody fuel rest2).map (fun (s, r) => (Char.ofNat 8 :: s, r))
        else if e = 'f' then
          (jsonParseStringBody fuel rest2).map (fun (s, r) => (Char.ofNat 12 :: s, r))
        else if e = 'u' then
          match rest2 with
          | h1 :: h2 :: h3 :: h4 :: rest3 =>
            match hexVal h1, hexVal h2, hexVal h3, hexVal h4 with
            | some v1, some v2, some v3, some v4 =>
              let n := ((v1 * 16 + v2) * 16 + v3) * 16 + v4
              if 0xD800 ≤ n ∧ n < 0xE000 then none  -- surrogates not modelled
              else
                (jsonParseStringBody fuel rest3).map
                  (fun (s, r) => (Char.ofNat n :: s, r))
            | _, _, _, _ => none
          | _ => none
        else none
    else (jsonParseStringBody fuel rest).map (fun (s, r) => (c :: s, r))

/-- Fuel-indexed parser for the members of a flat string object, after the
opening brace (no whitespace, mirroring what `JSON.stringify` emits). -/
def jsonParseMembers : Nat → List Char → Option (List (String × String))
  | 0, _ => none
  | _ + 1, [] => none
  | fuel + 1, c :: rest =>
    if c = '"' then
      match jsonParseStringBody fuel rest with
      | some (k, ':' :: '"' :: rest2) =>
        match jsonParseStringBody fuel rest2 with
        | some (v, rest3) =>
          match rest3 with
          | [c'] => if c' = Char.ofNat 125 then some [(⟨k⟩, ⟨v⟩)] else none
          | ',' :: rest4 =>
            (jsonParseMembers fuel rest4).map (fun t => (⟨k⟩, ⟨v⟩) :: t)
          | _ => none
        | none => none
      | _ => none
    else none

/-- The `JSON.parse` restricted to flat string-to-string objects; every other
input is routed to the catch branch (`none`). -/
def jsonParseFlatObj (s : String) : Option (List (String × String)) :=
  match s.data with
  | c :: rest =>
    if c = Char.ofNat 123 then
      match rest with
      | [c'] => if c' = Char.ofNat 125 then some [] else none
      | _ => jsonParseMembers s.data.length rest
    else none
  | [] => none

/-! ## UTMTracker (`tracking/UTMTracker.ts`)

A tracker instance holds a reference to the shared `StorageManager` (or
`null` after `reset`); the referenced manager's state is passed alongside
explicitly, with `hasStorage` recording whether the reference is null. -/

/-- The fields of a `UTMTracker` instance. -/
structure UTMTracker where
  hasStorage : Bool
  enabled : Bool

/-- The encoded `key=value` pair pushed for one parameter by both the
auto-capture loop and `setUTMParameters`. -/
def utmEncodePair (k v : String) : String :=
  encodeURIComponent k ++ "=" ++ encodeURIComponent v

/-- The per-entry body of `setUTMParameters`: defined, non-empty values
are encoded, the rest are skipped. -/
def utmEncodeEntry (p : String × Option String) : Option String :=
  match p.2 with
  | some v => if v ≠ "" then some (utmEncodePair p.1 v) else none
  | none => none

/-- The per-pair body of the `getUTMParameters` read-back loop:
`params[key] = decodeURIComponent(value)`, with a thrown `URIError`
propagating. -/
def utmDecodeStep (acc : List (String × String)) (p : String × String) :
    Except Unit (List (String × String)) :=
  match decodeURIComponentOpt p.2 with
  | some v => Except.ok (assocInsert acc p.1 v)
  | none => Except.error ()

namespace UTMTracker

/-- The `initializeUTMTracking`: read the current query string, collect the
`utm_`-prefixed parameters with the prefix stripped, percent-encode and
join them, and overwrite the persisted attribution string only when at
least one such parameter was found. -/
def initializeUTMTracking (t : UTMTracker) (sm : StorageManager) (w : World) :
    Except Unit (StorageManager × World) :=
  if w.env.windowPresent = false ∨ t.hasStorage = false then .ok (sm, w)
  else
    let queryParams := urlSearchParamsParse w.env.locationSearch
    let utmParameters := (queryParams.filter
        (fun p => p.1.startsWith "utm_")).map
      (fun p => utmEncodePair (p.1.drop 4) p.2)
    if utmParameters ≠ [] then
      let utmParamsString := joinSep "&" utmParameters
      sm.setItem w "cxp_utm_params" utmParamsString
    else .ok (sm, w)

/-- The `initialize` (source name; `initialize` is reserved in Lean). -/
def init (_t : UTMTracker) (config : SDKConfig) (sm : StorageManager)
    (w : World) : Except Unit (UTMTracker × StorageManager × World) :=
  let t' : UTMTracker :=
    { hasStorage := true, enabled := config.enableAutoUTM.getD true }
  if t'.enabled then
    (t'.initializeUTMTracking sm w).map (fun (sm', w') => (t', sm', w'))
  else .ok (t', sm, w)

/-- The `initializeSSR`: bookkeeping only. -/
def initSSR (_t : UTMTracker) (config : SDKConfig) (sm : StorageManager)
    (w : World) : UTMTracker × StorageManager × World :=
  ({ hasStorage := true, enabled := config.enableAutoUTM.getD true }, sm, w)

/-- The `getHeaders`. -/
def getHeaders (t : UTMTracker) (sm : StorageManager) (w : World) :
    List (String × String) :=
  if t.hasStorage then
    match sm.getItem w "cxp_utm_params" with
    | some s => if s ≠ "" then [("X-UTM", s)] else []
    | none => []
  else []

/-- The `reset`. -/
def reset (_t : UTMTracker) : UTMTracker :=
  { hasStorage := false, enabled := false }

/-- The `setUTMParameters`: build the encoded string from the defined,
non-empty entries in the order provided; persist it, or persist the empty
string when no entry survives. -/
def setUTMParameters (t : UTMTracker) (params : List (String × Option String))
    (sm : StorageManager) (w : World) : Except Unit (StorageManager × World) :=
  if t.hasStorage = false then .ok (sm, w)   -- warn and return
  else
    let utmParameters := params.filterMap utmEncodeEntry
    if utmParameters ≠ [] then
      sm.setItem w "cxp_utm_params" (joinSep "&" utmParameters)
    else
      sm.setItem w "cxp_utm_params" ""

/-- The `clearUTMParameters`. -/
def clearUTMParameters (t : UTMTracker) (sm : StorageManager) (w : World) :
    Except Unit (StorageManager × World) :=
  if t.hasStorage then sm.setItem w "cxp_utm_params" ""
  else .ok (sm, w)

/-- The `getUTMParameters`: parse the persisted string with `URLSearchParams`
and apply `decodeURIComponent` to each value (a thrown `URIError`
propagates, hence `Except`). -/
def getUTMParameters (t : UTMTracker) (sm : StorageManager) (w : World) :
    Except Unit (Option (List (String × String))) :=
  if t.hasStorage = false then .ok none
  else
    match sm.getItem w "cxp_utm_params" with
    | none => .ok none
    | some stored =>
      if stored = "" then .ok none
      else
        let pairs := urlSearchParamsParse stored
        do
        let params ← pairs.foldlM utmDecodeStep ([] : List (String × String))
        if params ≠ [] then .ok (some params) else .ok none

end UTMTracker

/-! ## ReferrerTracker (`tracking/ReferrerTracker.ts`) -/

/-- The fields of a `ReferrerTracker` instance. -/
structure ReferrerTracker where
  hasStorage : Bool
  enabled : Bool

namespace ReferrerTracker

/-- The `initializeReferrerTracking`: capture `document.referrer` when it is
truthy and differs from the page's own URL, and only when no referrer is
already persisted (JS `!getItem(...)`: absent or empty string). -/
def initializeReferrerTracking (t : ReferrerTracker) (sm : StorageManager)
    (w : World) : Except Unit (StorageManager × World) :=
  if w.env.windowPresent = false ∨ w.env.documentPresent = false ∨
      t.hasStorage = false then .ok (sm, w)
  else
    let initialReferrer :=
      if w.env.docReferrer ≠ "" ∧ w.env.docReferrer ≠ w.env.locationHref then
        some w.env.docReferrer
      else none
    match initialReferrer with
    | some r =>
      match sm.getItem w "cxp_initial_referrer" with
      | some s => if s = "" then sm.setItem w "cxp_initial_referrer" r
                  else .ok (sm, w)
      | none => sm.setItem w "cxp_initial_referrer" r
    | none => .ok (sm, w)

/-- The `initialize` (source name; `initialize` is reserved in Lean). -/
def init (_t : ReferrerTracker) (config : SDKConfig)
    (sm : StorageManager) (w : World) :
    Except Unit (ReferrerTracker × StorageManager × World) :=
  let t' : ReferrerTracker :=
    { hasStorage := true, enabled := config.enableReferrerTracking.getD true }
  if t'.enabled then
    (t'.initializeReferrerTracking sm w).map (fun (sm', w') => (t', sm', w'))
  else .ok (t', sm, w)

/-- The `initializeSSR`. -/
def initSSR (_t : ReferrerTracker) (config : SDKConfig)
    (sm : StorageManager) (w : World) :
    ReferrerTracker × StorageManager × World :=
  ({ hasStorage := true, enabled := config.enableReferrerTracking.getD true },
   sm, w)

/-- The `getHeaders`. -/
def getHeaders (t : ReferrerTracker) (sm : StorageManager) (w : World) :
    List (String × String) :=
  if t.hasStorage then
    match sm.getItem w "cxp_initial_referrer" with
    | some s => if s ≠ "" then [("X-ENTRY-SOURCE-INITIAL-REFERRAL", s)] else []
    | none => []
  else []

/-- The `reset`. -/
def reset (_t : ReferrerTracker) : ReferrerTracker :=
  { hasStorage := false, enabled := false }

/-- The `setReferrer` (string or `\x7burl, domain?\x7d` argument already
projected to its URL string). -/
def setReferrer (t : ReferrerTracker) (referrerUrl : String)
    (sm : StorageManager) (w : World) : Except Unit (StorageManager × World) :=
  if t.hasStorage = false then .ok (sm, w)   -- warn and return
  else
    if referrerUrl ≠ "" ∧ jsTrim referrerUrl ≠ "" then
      sm.setItem w "cxp_initial_referrer" (jsTrim referrerUrl)
    else sm.setItem w "cxp_initial_referrer" ""

/-- The `clearReferrer`. -/
def clearReferrer (t : ReferrerTracker) (sm : StorageManager) (w : World) :
    Except Unit (StorageManager × World) :=
  if t.hasStorage then sm.setItem w "cxp_initial_referrer" ""
  else .ok (sm, w)

/-- The `getReferrer`: `storedReferrer && storedReferrer.trim() !== '' ?
storedReferrer : null` — note the untrimmed stored value is returned. -/
def getReferrer (t : ReferrerTracker) (sm : StorageManager) (w : World) :
    Option String :=
  if t.hasStorage = false then none
  else
    match sm.getItem w "cxp_initial_referrer" with
    | some s => if s ≠ "" ∧ jsTrim s ≠ "" then some s else none
    | none => none

end ReferrerTracker

/-! ## CustomerIdentifierManager (`tracking/CustomerIdentifierManager.ts`) -/

/-- The fields of a `CustomerIdentifierManager` instance.  The in-memory
identifier map may hold `undefined` values (`none`). -/
structure CustomerIdentifierManager where
  hasStorage : Bool
  customerIdentifiers : List (String × Option String)

namespace CustomerIdentifierManager

/-- The `initialize` / `initializeSSR` (identical): store the reference and
reset the in-memory map. -/
def init (_m : CustomerIdentifierManager) (_config : SDKConfig) :
    CustomerIdentifierManager :=
  { hasStorage := true, customerIdentifiers := [] }

/-- The `getIdentifiers`: the in-memory map, overlaid on the persisted JSON
when storage is present and the stored value parses (parse failure is
warned about and ignored). -/
def getIdentifiers (m : CustomerIdentifierManager) (sm : StorageManager)
    (w : World) : List (String × Option String) :=
  let allIdentifiers := m.customerIdentifiers
  if m.hasStorage then
    match sm.getItem w "cxp_customer_identifiers" with
    | some stored =>
      if stored ≠ "" then
        match jsonParseFlatObj stored with
        | some storedIdentifiers =>
          assocMergeOpt (storedIdentifiers.map (fun p => (p.1, some p.2)))
            m.customerIdentifiers
        | none => allIdentifiers
      else allIdentifiers
    | none => allIdentifiers
  else allIdentifiers

/-- The `setIdentifiers`: merge into the in-memory map, then persist the
merge of the stored JSON (if any parses) with the in-memory map. -/
def setIdentifiers (m : CustomerIdentifierManager)
    (identifiers : List (String × Option String)) (sm : StorageManager)
    (w : World) :
    Except Unit (CustomerIdentifierManager × StorageManager × World) :=
  let m' := { m with
    customerIdentifiers := assocMergeOpt m.customerIdentifiers identifiers }
  if m'.hasStorage then
    let allIdentifiers :=
      match sm.getItem w "cxp_customer_identifiers" with
      | some stored =>
        if stored ≠ "" then
          match jsonParseFlatObj stored with
          | some storedIdentifiers =>
            assocMergeOpt (storedIdentifiers.map (fun p => (p.1, some p.2)))
              m'.customerIdentifiers
          | none => m'.customerIdentifiers
        else m'.customerIdentifiers
      | none => m'.customerIdentifiers
    (sm.setItem w "cxp_customer_identifiers"
      (jsonStringifyFlatObj allIdentifiers)).map
      (fun (sm', w') => (m', sm', w'))
  else .ok (m', sm, w)

/-- The `buildCustomerIdentifiersHeader`: entries whose value is defined and
non-empty, formatted verbatim as `key=value` joined by `&`; the sentinel
`none:none` when no entry survives. -/
def buildCustomerIdentifiersHeader
    (identifiers : List (String × Option String)) : String :=
  let validIdentifiers := (identifiers.filter (fun p =>
      p.2 ≠ none ∧ p.2 ≠ some "")).map
    (fun p => p.1 ++ "=" ++ p.2.getD "")
  if validIdentifiers ≠ [] then joinSep "&" validIdentifiers else "none:none"

/-- The `getHeaders`. -/
def getHeaders (m : CustomerIdentifierManager) (sm : StorageManager)
    (w : World) : List (String × String) :=
  [("X-CUSTOMER-IDENTIFIERS",
    buildCustomerIdentifiersHeader (m.getIdentifiers sm w))]

/-- The `reset`: persist `\x7b\x7d` while the reference is still held, then
drop the reference and the in-memory map. -/
def reset (m : CustomerIdentifierManager) (sm : StorageManager) (w : World) :
    Except Unit (CustomerIdentifierManager × StorageManager × World) :=
  if m.hasStorage then
    (sm.setItem w "cxp_customer_identifiers" (jsonStringifyFlatObj [])).map
      (fun (sm', w') =>
        ({ hasStorage := false, customerIdentifiers := [] }, sm', w'))
  else .ok ({ hasStorage := false, customerIdentifiers := [] }, sm, w)

end CustomerIdentifierManager

/-! ## Coordinator (`core/GrowcadoSDK.ts`, class `GrowcadoSDKClass`)

The HTTP client and the axios request interceptor are out of scope; the
interceptor's header aggregation is modelled by `aggregateHeaders`. -/

/-- The fields of the coordinator. -/
structure GrowcadoSDK where
  config : Option SDKConfig
  storageManager : Option StorageManager
  utmTracker : UTMTracker
  customerManager : CustomerIdentifierManager
  referrerTracker : ReferrerTracker

namespace GrowcadoSDK

/-- The constructor: no configuration, fresh trackers. -/
def newSDK : GrowcadoSDK :=
  { config := none
    storageManager := none
    utmTracker := { hasStorage := false, enabled := false }
    customerManager := { hasStorage := false, customerIdentifiers := [] }
    referrerTracker := { hasStorage := false, enabled := false } }

/-- The configuration-merge performed by `configure`: caller fields (when
present) over the defaults, with `ssrMode` defaulting to "no `window`
detected". -/
def mergeConfig (config : SDKConfig) (w : World) : SDKConfig :=
  { tenantId := config.tenantId
    baseURL := some (config.baseURL.getD "https://api.growcado.io/")
    enableAutoUTM := some (config.enableAutoUTM.getD true)
    enableReferrerTracking := some (config.enableReferrerTracking.getD true)
    storage := some (config.storage.getD .localStorage)
    ssrMode := some (config.ssrMode.getD (w.env.windowPresent = false))
    hydrateOnMount := some (config.hydrateOnMount.getD true) }

/-- The `initializeTrackers`: SSR-safe initialization when the stored config
says SSR or no `window` exists, full browser initialization otherwise
(order: UTM, customer identifiers, referrer). -/
def initTrackers (sdk : GrowcadoSDK) (w : World) :
    Except Unit (GrowcadoSDK × World) :=
  match sdk.config, sdk.storageManager with
  | some cfg, some sm =>
    let useSSRMode := cfg.ssrMode = some true ∨ w.env.windowPresent = false
    if useSSRMode then
      let (ut, sm1, w1) := sdk.utmTracker.initSSR cfg sm w
      let cm := sdk.customerManager.init cfg
      let (rt, sm2, w2) := sdk.referrerTracker.initSSR cfg sm1 w1
      .ok ({ sdk with
               utmTracker := ut
               customerManager := cm
               referrerTracker := rt
               storageManager := some sm2 }, w2)
    else do
      let (ut, sm1, w1) ← sdk.utmTracker.init cfg sm w
      let cm := sdk.customerManager.init cfg
      let (rt, sm2, w2) ← sdk.referrerTracker.init cfg sm1 w1
      .ok ({ sdk with
               utmTracker := ut
               customerManager := cm
               referrerTracker := rt
               storageManager := some sm2 }, w2)
  | _, _ => .ok (sdk, w)

/-- The `configure`: merge the config, build a fresh `StorageManager`, and
initialize the trackers (HTTP-client configuration and the interceptor
installation have no effect on the modelled state). -/
def configure (sdk : GrowcadoSDK) (config : SDKConfig) (w : World) :
    Except Unit (GrowcadoSDK × World) :=
  let merged := mergeConfig config w
  let (sm, w1) := StorageManager.new merged w
  let sdk1 := { sdk with config := some merged, storageManager := some sm }
  sdk1.initTrackers w1

/-- The `hydrate`: warn and return when no `window` or not configured; else
flip `ssrMode` off, let the storage manager hydrate, and re-initialize
the trackers with browser APIs. -/
def hydrate (sdk : GrowcadoSDK) (w : World) : Except Unit (GrowcadoSDK × World) :=
  match sdk.config with
  | none => .ok (sdk, w)   -- warn: called before configure
  | some cfg =>
    if w.env.windowPresent = false then .ok (sdk, w)   -- warn: non-browser
    else
      let cfg' := { cfg with ssrMode := some false }
      let (_upgraded, sm', w') :=
        match sdk.storageManager with
        | some sm =>
          let (u, sm', w') := sm.hydrateStorage w
          (u, some sm', w')
        | none => (false, none, w)
      let sdk1 := { sdk with config := some cfg', storageManager := sm' }
      sdk1.initTrackers w'

/-- The `setCustomerIdentifiers`: pass-through to the customer manager,
against the shared storage manager. -/
def setCustomerIdentifiers (sdk : GrowcadoSDK)
    (identifiers : List (String × Option String)) (w : World) :
    Except Unit (GrowcadoSDK × World) :=
  match sdk.storageManager with
  | some sm =>
    (sdk.customerManager.setIdentifiers identifiers sm w).map
      (fun (cm, sm', w') =>
        ({ sdk with customerManager := cm, storageManager := some sm' }, w'))
  | none =>
    (sdk.customerManager.setIdentifiers identifiers
        { storageType := .memory, memoryStorage := [] } w).map
      (fun (cm, _, w') => ({ sdk with customerManager := cm }, w'))

/-- The `getIdentifiers` as observed through the coordinator's customer
manager and shared storage. -/
def getIdentifiers (sdk : GrowcadoSDK) (w : World) :
    List (String × Option String) :=
  match sdk.storageManager with
  | some sm => sdk.customerManager.getIdentifiers sm w
  | none => sdk.customerManager.getIdentifiers
      { storageType := .memory, memoryStorage := [] } w

end GrowcadoSDK

/-! ## Shared lemmas -/

theorem assocLookup_cons (k' v' k : String) (rest : List (String × String)) :
    assocLookup ((k', v') :: rest) k =
      if k' = k then some v' else assocLookup rest k := by
  simp only [assocLookup, List.find?_cons]
  by_cases h : k' = k <;> simp [h]

theorem assocLookup_insert (l : List (String × String)) (k v : String) :
    assocLookup (assocInsert l k v) k = some v := by
  induction l with
  | nil => simp [assocInsert, assocLookup_cons]
  | cons p rest ih =>
    obtain ⟨k', v'⟩ := p
    by_cases h : k' = k
    · simp [assocInsert, h, assocLookup_cons]
    · simp [assocInsert, h, assocLookup_cons, ih]

theorem assocLookup_insert_ne (l : List (String × String)) (k v k'' : String)
    (h : k ≠ k'') :
    assocLookup (assocInsert l k v) k'' = assocLookup l k'' := by
  induction l with
  | nil => simp [assocInsert, assocLookup_cons, assocLookup, h]
  | cons p rest ih =>
    obtain ⟨k', v'⟩ := p
    by_cases hk : k' = k
    · subst hk
      simp [assocInsert, assocLookup_cons, h]
    · simp [assocInsert, hk, assocLookup_cons, ih]

theorem assocInsert_idem (l : List (String × String)) (k v : String) :
    assocInsert (assocInsert l k v) k v = assocInsert l k v := by
  induction l with
  | nil => simp [assocInsert]
  | cons p rest ih =>
    obtain ⟨k', v'⟩ := p
    by_cases h : k' = k <;> simp [assocInsert, h, ih]

/-- A successful `StorageManager.setItem` makes the value readable and
leaves the environment and the backend kind unchanged. -/
theorem StorageManager.setItem_ok (sm sm' : StorageManager) (w w' : World)
    (k v : String) (h : sm.setItem w k v = .ok (sm', w')) :
    sm'.getItem w' k = some v ∧ w'.env = w.env ∧
    sm'.storageType = sm.storageType := by
  unfold StorageManager.setItem at h
  by_cases hc : sm.storageType = .localStorage ∧ w.env.windowPresent
  · rw [if_pos hc] at h
    unfold domLsSetItem at h
    by_cases hf : w.env.writeFails k
    · simp [hf] at h
    · simp only [hf, Bool.false_eq_true, if_false] at h
      cases h
      constructor
      · unfold StorageManager.getItem domLsGetItem
        simp only [hc.1, hc.2, and_self, if_true]
        exact assocLookup_insert _ _ _
      · exact ⟨rfl, rfl⟩
  · rw [if_neg hc] at h
    cases h
    refine ⟨?_, rfl, rfl⟩
    unfold StorageManager.getItem
    rw [if_neg hc]
    exact assocLookup_insert _ _ _

/-- A successful `setItem` is idempotent: repeating the same write
reproduces exactly the same state. -/
theorem StorageManager.setItem_idem (sm sm' : StorageManager) (w w' : World)
    (k v : String) (h : sm.setItem w k v = .ok (sm', w')) :
    sm'.setItem w' k v = .ok (sm', w') := by
  unfold StorageManager.setItem at h ⊢
  by_cases hc : sm.storageType = .localStorage ∧ w.env.windowPresent
  · rw [if_pos hc] at h
    unfold domLsSetItem at h
    by_cases hf : w.env.writeFails k
    · simp [hf] at h
    · simp only [hf, Bool.false_eq_true, if_false] at h
      cases h
      rw [if_pos hc]
      unfold domLsSetItem
      simp only [hf, Bool.false_eq_true, if_false, assocInsert_idem]
  · rw [if_neg hc] at h
    cases h
    rw [if_neg hc]
    simp [assocInsert_idem]

/-! ## Concrete worlds used by witnesses -/

/-- A working browser environment: `window`/`document` present, no query
string, no referrer, every `localStorage` write succeeds. -/
def envBrowser : JSEnv :=
  { windowPresent := true, documentPresent := true, locationSearch := ""
    locationHref := "https://example.com/page", docReferrer := ""
    writeFails := fun _ => false }

/-- The working browser world with empty `localStorage`. -/
def wBrowser : World := { env := envBrowser, localStorageData := [] }

/-- A browser environment whose `localStorage` rejects every write
(quota exhausted / privacy mode). -/
def envQuotaFull : JSEnv := { envBrowser with writeFails := fun _ => true }

/-- The quota-exhausted browser world. -/
def wQuotaFull : World := { env := envQuotaFull, localStorageData := [] }

/-- A storage manager resolved to the persistent backend. -/
def smOnLocalStorage : StorageManager :=
  { storageType := .localStorage, memoryStorage := [] }

/-- A storage manager resolved to the transient backend. -/
def smOnMemory : StorageManager :=
  { storageType := .memory, memoryStorage := [] }

/-! ## C5 — storage resolution at construction -/

/-- C5: at `StorageManager` construction, `ssrMode: true` forces the
transient backend regardless of the requested mode; otherwise a requested
persistent backend is kept only when the sentinel write+delete probe
succeeds, silently resolving to the transient backend when it fails; and
the probe succeeds exactly when a `window` exists and the sentinel write
does not throw. -/
theorem resolveStorageType_ssr_and_persistent_probe (config : SDKConfig)
    (w : World) :
    (config.ssrMode = some true →
      (StorageManager.resolveStorageType config w).1 = .memory) ∧
    (config.ssrMode ≠ some true →
      config.storage.getD .localStorage = .localStorage →
      (StorageManager.resolveStorageType config w).1 =
        (if (StorageManager.canUseLocalStorage w).1 then .localStorage
         else .memory)) ∧
    ((StorageManager.canUseLocalStorage w).1 = true ↔
      w.env.windowPresent = true ∧
      w.env.writeFails "growcado_test" = false) := by
  refine ⟨?_, ?_, ?_⟩
  · intro h
    unfold StorageManager.resolveStorageType
    simp [h]
  · intro hssr hreq
    unfold StorageManager.resolveStorageType
    rw [if_neg hssr]
    rw [hreq]
    simp
  · unfold StorageManager.canUseLocalStorage domLsSetItem
    by_cases hw : w.env.windowPresent
    · by_cases hf : w.env.writeFails "growcado_test" <;> simp [hw, hf]
    · simp [hw]

/-- Witness for C5 at a concrete configuration and world. -/
theorem resolveStorageType_ssr_and_persistent_probe_witness :
    ((⟨"t", none, none, none, some .localStorage, some true, none⟩ :
        SDKConfig).ssrMode = some true →
      (StorageManager.resolveStorageType
        ⟨"t", none, none, none, some .localStorage, some true, none⟩
        wBrowser).1 = .memory) ∧
    ((StorageManager.resolveStorageType
        ⟨"t", none, none, none, some .localStorage, some true, none⟩
        wBrowser).1 = .memory) :=
  ⟨(resolveStorageType_ssr_and_persistent_probe _ wBrowser).1,
   (resolveStorageType_ssr_and_persistent_probe _ wBrowser).1 rfl⟩

/-! ## C2 — `setItem` failure semantics -/

/-- C2 counterexample: on the persistent backend with a throwing
`localStorage`, `StorageManager.setItem` propagates the exception to the
caller (the claim "never throws" fails), and the value is not retrievable
from the transient backend afterwards either. -/
theorem setItem_can_throw_counterexample :
    StorageManager.setItem smOnLocalStorage wQuotaFull "k" "v" = .error () ∧
    assocLookup smOnLocalStorage.memoryStorage "k" = none := by
  constructor <;> rfl

/-- C2 amended: whenever `setItem` addresses the transient backend (the
manager resolved to memory, or no `window` exists), it never throws and
the value is immediately retrievable; a write failure on the persistent
backend, however, propagates to the caller. -/
theorem setItem_transient_total (sm : StorageManager) (w : World)
    (k v : String)
    (h : sm.storageType = .memory ∨ w.env.windowPresent = false) :
    StorageManager.setItem sm w k v =
      .ok ({ sm with memoryStorage := assocInsert sm.memoryStorage k v }, w) ∧
    StorageManager.getItem
      { sm with memoryStorage := assocInsert sm.memoryStorage k v } w k =
      some v ∧
    (sm.storageType = .localStorage → w.env.windowPresent = true →
      w.env.writeFails k = true →
      StorageManager.setItem sm w k v = .error ()) := by
  have hc : ¬(sm.storageType = .localStorage ∧ w.env.windowPresent) := by
    rcases h with h | h
    · rintro ⟨h1, _⟩; rw [h] at h1; cases h1
    · rintro ⟨_, h2⟩; rw [h] at h2; cases h2
  refine ⟨?_, ?_, ?_⟩
  · unfold StorageManager.setItem
    rw [if_neg hc]
  · unfold StorageManager.getItem
    rw [if_neg hc]
    exact assocLookup_insert _ _ _
  · intro h1 h2 _
    exact absurd ⟨h1, by rw [h2]⟩ hc

/-- Witness for C2's amended theorem on the memory backend. -/
theorem setItem_transient_total_witness :
    (smOnMemory.storageType = .memory ∨
      wBrowser.env.windowPresent = false) ∧
    StorageManager.setItem smOnMemory wBrowser "k" "v" =
      .ok ({ smOnMemory with
              memoryStorage := assocInsert smOnMemory.memoryStorage "k" "v" },
           wBrowser) :=
  ⟨Or.inl rfl, (setItem_transient_total smOnMemory wBrowser "k" "v"
    (Or.inl rfl)).1⟩

/-! ## C8 — customer-identifiers header sentinel -/

theorem joinSep_mem_char (sep : String) (l : List String) (s : String)
    (c : Char) (hs : s ∈ l) (hc : c ∈ s.data) :
    c ∈ (joinSep sep l).data := by
  induction l with
  | nil => cases hs
  | cons s0 rest ih =>
    cases rest with
    | nil =>
      rcases List.mem_singleton.mp hs with rfl
      exact hc
    | cons s1 t =>
      show c ∈ (s0 ++ sep ++ joinSep sep (s1 :: t)).data
      rw [String.data_append, String.data_append]
      rcases List.mem_cons.mp hs with rfl | h
      · exact List.mem_append_left _ (List.mem_append_left _ hc)
      · exact List.mem_append_right _ (ih h)

/-- C8: `getHeaders()` on the customer identifier manager always returns
exactly the `X-CUSTOMER-IDENTIFIERS` header, and its value is the literal
sentinel `none:none` exactly when no identifier of the merged view has a
defined, non-empty value — for every manager state, storage backend and
world. -/
theorem customerHeader_always_present_sentinel_iff
    (m : CustomerIdentifierManager) (sm : StorageManager) (w : World) :
    ∃ v, m.getHeaders sm w = [("X-CUSTOMER-IDENTIFIERS", v)] ∧
      (v = "none:none" ↔
        ∀ p ∈ m.getIdentifiers sm w, p.2 = none ∨ p.2 = some "") := by
  refine ⟨CustomerIdentifierManager.buildCustomerIdentifiersHeader
    (m.getIdentifiers sm w), rfl, ?_⟩
  set ids := m.getIdentifiers sm w with hids
  unfold CustomerIdentifierManager.buildCustomerIdentifiersHeader
  by_cases hnil : ids.filter (fun p => p.2 ≠ none ∧ p.2 ≠ some "") = []
  · rw [hnil, List.map_nil, if_neg (by simp)]
    constructor
    · intro _ p hp
      have := (List.filter_eq_nil_iff.mp hnil) p hp
      simp only [ne_eq, Bool.not_eq_true, decide_eq_false_iff_not,
        not_and, not_not] at this
      by_cases h0 : p.2 = none
      · exact Or.inl h0
      · exact Or.inr (this h0)
    · intro _
      rfl
  · have hmapne : (ids.filter
        (fun p => p.2 ≠ none ∧ p.2 ≠ some "")).map
        (fun p => p.1 ++ "=" ++ p.2.getD "") ≠ [] := by
      simpa using hnil
    rw [if_pos hmapne]
    constructor
    · intro hv
      exfalso
      obtain ⟨p, hp⟩ := List.exists_mem_of_ne_nil _ hnil
      have hmem : (p.1 ++ "=" ++ p.2.getD "") ∈
          (ids.filter (fun p => p.2 ≠ none ∧ p.2 ≠ some "")).map
            (fun p => p.1 ++ "=" ++ p.2.getD "") :=
        List.mem_map_of_mem _ hp
      have heq : '=' ∈ (p.1 ++ "=" ++ p.2.getD "").data := by
        rw [String.data_append, String.data_append]
        refine List.mem_append_left _ (List.mem_append_right _ ?_)
        decide
      have : '=' ∈ (joinSep "&"
          ((ids.filter (fun p => p.2 ≠ none ∧ p.2 ≠ some "")).map
            (fun p => p.1 ++ "=" ++ p.2.getD ""))).data :=
        joinSep_mem_char _ _ _ _ hmem heq
      rw [hv] at this
      revert this
      decide
    · intro hall
      exfalso
      obtain ⟨p, hp⟩ := List.exists_mem_of_ne_nil _ hnil
      have h1 := List.of_mem_filter hp
      have h2 := List.mem_of_mem_filter hp
      rcases hall p h2 with h | h <;>
        simp [h] at h1

/-- Witness for C8 at a concrete manager with no identifiers and at one
with a defined identifier. -/
theorem customerHeader_always_present_sentinel_iff_witness :
    (∃ v, CustomerIdentifierManager.getHeaders
        { hasStorage := false, customerIdentifiers := [] } smOnMemory
        wBrowser = [("X-CUSTOMER-IDENTIFIERS", v)] ∧
      (v = "none:none" ↔
        ∀ p ∈ CustomerIdentifierManager.getIdentifiers
          { hasStorage := false, customerIdentifiers := [] } smOnMemory
          wBrowser, p.2 = none ∨ p.2 = some "")) :=
  customerHeader_always_present_sentinel_iff _ smOnMemory wBrowser

/-! ## C9 — `getReferrer` semantics -/

/-- A referrer tracker holding a storage reference. -/
def rtWithStorage : ReferrerTracker := { hasStorage := true, enabled := true }

/-- A memory-backed storage manager whose persisted referrer has
surrounding whitespace. -/
def smPaddedReferrer : StorageManager :=
  { storageType := .memory
    memoryStorage := [("cxp_initial_referrer", " x ")] }

/-- C9 counterexample: for the persisted referrer `" x "` the claim says
`getReferrer()` returns the trimmed value `"x"`, but the code returns the
stored value unchanged. -/
theorem getReferrer_not_trimmed_counterexample :
    rtWithStorage.getReferrer smPaddedReferrer wBrowser = some " x " ∧
    jsTrim " x " = "x" ∧
    rtWithStorage.getReferrer smPaddedReferrer wBrowser ≠
      some (jsTrim " x ") := by
  exact ⟨rfl, rfl, by decide⟩

/-- C9 amended: `getReferrer()` returns `null` when the persisted value
is absent, empty, or whitespace-only after trimming, and otherwise
returns the stored value unchanged (not trimmed). -/
theorem getReferrer_null_on_blank_else_stored (t : ReferrerTracker)
    (sm : StorageManager) (w : World) (hs : t.hasStorage = true) :
    (sm.getItem w "cxp_initial_referrer" = none →
      t.getReferrer sm w = none) ∧
    (∀ s, sm.getItem w "cxp_initial_referrer" = some s →
      (jsTrim s = "" → t.getReferrer sm w = none) ∧
      (jsTrim s ≠ "" → t.getReferrer sm w = some s)) := by
  constructor
  · intro h
    unfold ReferrerTracker.getReferrer
    rw [hs]
    simp [h]
  · intro s h
    constructor
    · intro htrim
      unfold ReferrerTracker.getReferrer
      rw [hs]
      simp only [Bool.true_eq_false, if_false, reduceIte, h]
      rw [if_neg]
      rintro ⟨-, hne⟩
      exact hne htrim
    · intro htrim
      unfold ReferrerTracker.getReferrer
      rw [hs]
      simp only [Bool.true_eq_false, if_false, reduceIte, h]
      rw [if_pos]
      refine ⟨?_, htrim⟩
      intro hempty
      apply htrim
      rw [hempty]
      rfl

/-- Witness for C9's amended theorem: whitespace-only stored value. -/
theorem getReferrer_null_on_blank_else_stored_witness :
    rtWithStorage.hasStorage = true ∧
    (jsTrim "  " = "" →
      rtWithStorage.getReferrer
        { storageType := .memory, memoryStorage := [("cxp_initial_referrer", "  ")] }
        wBrowser = none) :=
  ⟨rfl, fun h => ((getReferrer_null_on_blank_else_stored rtWithStorage
    { storageType := .memory,
      memoryStorage := [("cxp_initial_referrer", "  ")] } wBrowser rfl).2
    "  " rfl).1 h⟩

/-! ## C6 — referrer auto-capture is first-write-wins -/

/-- C6: when a non-empty referrer value is already persisted,
`ReferrerTracker.initialize` leaves the tracker's storage manager and the
world exactly as they were, for every configuration and every current
document referrer — auto-capture never overwrites it. -/
theorem referrer_init_never_overwrites (t : ReferrerTracker)
    (cfg : SDKConfig) (sm : StorageManager) (w : World) (s : String)
    (hstored : sm.getItem w "cxp_initial_referrer" = some s)
    (hne : s ≠ "") :
    t.init cfg sm w =
      .ok ({ hasStorage := true,
             enabled := cfg.enableReferrerTracking.getD true }, sm, w) := by
  unfold ReferrerTracker.init
  by_cases hen : cfg.enableReferrerTracking.getD true = true
  · rw [if_pos hen]
    unfold ReferrerTracker.initializeReferrerTracking
    by_cases hw : w.env.windowPresent = false ∨ w.env.documentPresent = false
    · rcases hw with hw | hw
      · rw [if_pos (Or.inl hw)]
        rfl
      · rw [if_pos (Or.inr (Or.inl hw))]
        rfl
    · push_neg at hw
      rw [if_neg (by simp [hw.1, hw.2])]
      by_cases hr : w.env.docReferrer ≠ "" ∧
          w.env.docReferrer ≠ w.env.locationHref
      · rw [if_pos hr, hstored]
        simp only [Except.map, hne, if_neg, reduceIte]
      · rw [if_neg hr]
        rfl
  · rw [if_neg hen]

/-- Witness for C6: a persisted referrer survives `initialize` unchanged
even though the document currently reports a different referrer. -/
theorem referrer_init_never_overwrites_witness :
    ({ storageType := .memory,
       memoryStorage := [("cxp_initial_referrer", "https://first.example/")] } :
        StorageManager).getItem
      { env := { envBrowser with docReferrer := "https://second.example/" }
        localStorageData := [] } "cxp_initial_referrer" =
      some "https://first.example/" ∧
    ("https://first.example/" : String) ≠ "" ∧
    ReferrerTracker.init rtWithStorage {}
      { storageType := .memory,
        memoryStorage := [("cxp_initial_referrer", "https://first.example/")] }
      { env := { envBrowser with docReferrer := "https://second.example/" }
        localStorageData := [] } =
      .ok ({ hasStorage := true, enabled := true },
        { storageType := .memory,
          memoryStorage := [("cxp_initial_referrer", "https://first.example/")] },
        { env := { envBrowser with docReferrer := "https://second.example/" }
          localStorageData := [] }) :=
  ⟨rfl, by decide,
   referrer_init_never_overwrites rtWithStorage {} _ _ "https://first.example/"
     rfl (by decide)⟩

/-! ## C10 — customer-identifier header is not percent-encoded -/

/-- Two distinct identifier maps that collide once formatted verbatim. -/
def cimAmbiguousOne : CustomerIdentifierManager :=
  { hasStorage := false, customerIdentifiers := [("a", some "1&b=2")] }

/-- The two-entry map the previous one is indistinguishable from. -/
def cimAmbiguousTwo : CustomerIdentifierManager :=
  { hasStorage := false
    customerIdentifiers := [("a", some "1"), ("b", some "2")] }

/-- C10: the `X-CUSTOMER-IDENTIFIERS` header concatenates entries
verbatim (no percent-encoding), so a value containing `&`/`=` produces a
header identical to that of a different map with an additional pair,
whereas the UTM encoding used by `setUTMParameters` keeps the two maps
distinct. -/
theorem customerHeader_verbatim_ambiguous_vs_utm :
    CustomerIdentifierManager.buildCustomerIdentifiersHeader
      [("a", some "1&b=2")] = "a=1&b=2" ∧
    cimAmbiguousOne.customerIdentifiers ≠ cimAmbiguousTwo.customerIdentifiers ∧
    cimAmbiguousOne.getHeaders smOnMemory wBrowser =
      cimAmbiguousTwo.getHeaders smOnMemory wBrowser ∧
    joinSep "&" [utmEncodePair "a" "1&b=2"] ≠
      joinSep "&" [utmEncodePair "a" "1", utmEncodePair "b" "2"] := by
  refine ⟨rfl, by decide, rfl, by decide⟩

/-! ## C3 — transient→persistent migration is atomic as observed -/

theorem domLsSetItem_ok (w w1 : World) (k v : String)
    (h : domLsSetItem w k v = .ok w1) :
    w1.env = w.env ∧
    w1.localStorageData = assocInsert w.localStorageData k v := by
  unfold domLsSetItem at h
  by_cases hf : w.env.writeFails k
  · simp [hf] at h
  · simp only [hf, Bool.false_eq_true, if_false, reduceIte] at h
    cases h
    exact ⟨rfl, rfl⟩

theorem writeEntries_env (l : List (String × String)) (w w' : World)
    (b : Bool) (h : StorageManager.writeEntries l w = (w', b)) :
    w'.env = w.env := by
  induction l generalizing w with
  | nil =>
    unfold StorageManager.writeEntries at h
    cases h
    rfl
  | cons p rest ih =>
    obtain ⟨k, v⟩ := p
    unfold StorageManager.writeEntries at h
    cases hset : domLsSetItem w k v with
    | ok w1 =>
      rw [hset] at h
      simp only [] at h
      rw [ih w1 h]
      exact (domLsSetItem_ok w w1 k v hset).1
    | error e =>
      rw [hset] at h
      simp only [] at h
      cases h
      rfl

theorem writeEntries_preserves_absent (l : List (String × String))
    (w w' : World) (b : Bool) (k : String)
    (h : StorageManager.writeEntries l w = (w', b))
    (hk : k ∉ l.map Prod.fst) :
    domLsGetItem w' k = domLsGetItem w k := by
  induction l generalizing w with
  | nil =>
    unfold StorageManager.writeEntries at h
    cases h
    rfl
  | cons p rest ih =>
    obtain ⟨k0, v0⟩ := p
    simp only [List.map_cons, List.mem_cons, not_or] at hk
    unfold StorageManager.writeEntries at h
    cases hset : domLsSetItem w k0 v0 with
    | ok w1 =>
      rw [hset] at h
      simp only [] at h
      rw [ih w1 h hk.2]
      obtain ⟨-, hdata⟩ := domLsSetItem_ok w w1 k0 v0 hset
      unfold domLsGetItem
      rw [hdata]
      exact assocLookup_insert_ne _ _ _ _ (fun he => hk.1 he.symm)
    | error e =>
      rw [hset] at h
      simp only [] at h
      cases h
      rfl

theorem writeEntries_success_lookup (l : List (String × String))
    (w w' : World) (h : StorageManager.writeEntries l w = (w', true))
    (hnd : (l.map Prod.fst).Nodup) (k v : String)
    (hkv : assocLookup l k = some v) :
    domLsGetItem w' k = some v := by
  induction l generalizing w with
  | nil =>
    simp [assocLookup] at hkv
  | cons p rest ih =>
    obtain ⟨k0, v0⟩ := p
    simp only [List.map_cons, List.nodup_cons] at hnd
    unfold StorageManager.writeEntries at h
    cases hset : domLsSetItem w k0 v0 with
    | ok w1 =>
      rw [hset] at h
      simp only [] at h
      rw [assocLookup_cons] at hkv
      by_cases hkk : k0 = k
      · subst hkk
        rw [if_pos rfl] at hkv
        cases hkv
        rw [writeEntries_preserves_absent rest w1 w' true k0 h hnd.1]
        obtain ⟨-, hdata⟩ := domLsSetItem_ok _ _ _ _ hset
        unfold domLsGetItem
        rw [hdata]
        exact assocLookup_insert _ _ _
      · rw [if_neg hkk] at hkv
        exact ih w1 h hnd.2 hkv
    | error e =>
      rw [hset] at h
      simp only [] at h
      cases h

/-- C3: from the transient backend in a browser context,
`migrateToStorage('localStorage')` either copies every transient entry
into `localStorage` and empties the transient map, or — when some write
throws — aborts with the backend still transient, the transient map
untouched, and every `getItem` result unchanged. -/
theorem migrate_memory_to_localStorage_atomic (sm : StorageManager)
    (w : World) (sm' : StorageManager) (w' : World)
    (hmem : sm.storageType = .memory)
    (hwin : w.env.windowPresent = true)
    (hnd : (sm.memoryStorage.map Prod.fst).Nodup)
    (heq : sm.migrateToStorage w .localStorage = (sm', w')) :
    (sm'.storageType = .localStorage ∧ sm'.memoryStorage = [] ∧
      ∀ k v, assocLookup sm.memoryStorage k = some v →
        domLsGetItem w' k = some v) ∨
    (sm'.storageType = .memory ∧ sm'.memoryStorage = sm.memoryStorage ∧
      ∀ k, sm'.getItem w' k = sm.getItem w k) := by
  unfold StorageManager.migrateToStorage at heq
  rw [if_neg (by rw [hmem]; intro hc; cases hc)] at heq
  rw [if_pos (by exact ⟨hmem, rfl, by rw [hwin]⟩)] at heq
  rcases hw : StorageManager.writeEntries sm.memoryStorage w with ⟨w1, ok⟩
  cases ok with
  | true =>
    simp only [hw] at heq
    cases heq
    exact Or.inl ⟨rfl, rfl, fun k v hkv =>
      writeEntries_success_lookup _ _ _ hw hnd k v hkv⟩
  | false =>
    simp only [hw, Bool.false_eq_true, if_false, reduceIte] at heq
    cases heq
    refine Or.inr ⟨hmem, rfl, fun k => ?_⟩
    unfold StorageManager.getItem
    rw [if_neg (by rw [hmem]; rintro ⟨hc, -⟩; cases hc),
        if_neg (by rw [hmem]; rintro ⟨hc, -⟩; cases hc)]

/-- A two-entry transient store used by the C3 witness. -/
def smTwoEntries : StorageManager :=
  { storageType := .memory
    memoryStorage := [("cxp_utm_params", "source=x"),
                      ("cxp_initial_referrer", "https://r.example/")] }

/-- Witness for C3: a two-entry transient store migrates successfully in
the working browser world. -/
theorem migrate_memory_to_localStorage_atomic_witness :
    smTwoEntries.storageType = StorageType.memory ∧
    (((smTwoEntries.migrateToStorage wBrowser .localStorage).1.storageType =
        StorageType.localStorage ∧
      (smTwoEntries.migrateToStorage wBrowser .localStorage).1.memoryStorage =
        [] ∧
      ∀ k v, assocLookup smTwoEntries.memoryStorage k = some v →
        domLsGetItem (smTwoEntries.migrateToStorage wBrowser .localStorage).2
          k = some v) ∨
    ((smTwoEntries.migrateToStorage wBrowser .localStorage).1.storageType =
        StorageType.memory ∧
      (smTwoEntries.migrateToStorage wBrowser .localStorage).1.memoryStorage =
        smTwoEntries.memoryStorage ∧
      ∀ k, (smTwoEntries.migrateToStorage wBrowser .localStorage).1.getItem
        (smTwoEntries.migrateToStorage wBrowser .localStorage).2 k =
        smTwoEntries.getItem wBrowser k)) :=
  ⟨rfl, by
    rcases hp : smTwoEntries.migrateToStorage wBrowser .localStorage
      with ⟨sm', w'⟩
    have := migrate_memory_to_localStorage_atomic smTwoEntries wBrowser sm' w'
      rfl rfl (by decide) hp
    simpa [hp] using this⟩

/-! ## C7 — UTM auto-capture leaves state alone without `utm_*` params -/

theorem initializeUTMTracking_ok_idem (t : UTMTracker) (sm : StorageManager)
    (w : World) (sm' : StorageManager) (w' : World)
    (h : t.initializeUTMTracking sm w = .ok (sm', w')) :
    w'.env = w.env ∧ t.initializeUTMTracking sm' w' = .ok (sm', w') := by
  unfold UTMTracker.initializeUTMTracking at h ⊢
  by_cases hg : w.env.windowPresent = false ∨ t.hasStorage = false
  · rw [if_pos hg] at h
    cases h
    rw [if_pos hg]
    exact ⟨rfl, rfl⟩
  · rw [if_neg hg] at h
    by_cases hne : ((urlSearchParamsParse w.env.locationSearch).filter
        (fun p => p.1.startsWith "utm_")).map
        (fun p => utmEncodePair (p.1.drop 4) p.2) ≠ []
    · rw [if_pos hne] at h
      obtain ⟨-, henv, -⟩ := StorageManager.setItem_ok _ _ _ _ _ _ h
      refine ⟨henv, ?_⟩
      rw [henv]
      rw [if_neg hg, if_pos hne]
      exact StorageManager.setItem_idem _ _ _ _ _ _ h
    · rw [if_neg hne] at h
      cases h
      rw [if_neg hg, if_neg hne]
      exact ⟨rfl, rfl⟩

/-- C7: with zero `utm_*` parameters in the current query string,
`UTMTracker.initialize` leaves the storage manager and world exactly
unchanged (so previously captured or manually-set attribution strings
survive); and any successful `initialize` is stable — running it again
against the same environment reproduces exactly the same state. -/
theorem utm_init_preserves_without_params (t : UTMTracker)
    (cfg : SDKConfig) (sm : StorageManager) (w : World) :
    ((urlSearchParamsParse w.env.locationSearch).filter
        (fun p => p.1.startsWith "utm_") = [] →
      t.init cfg sm w =
        .ok ({ hasStorage := true, enabled := cfg.enableAutoUTM.getD true },
          sm, w)) ∧
    (∀ t' sm' w', t.init cfg sm w = .ok (t', sm', w') →
      t'.init cfg sm' w' = .ok (t', sm', w')) := by
  constructor
  · intro hz
    unfold UTMTracker.init
    by_cases hen : cfg.enableAutoUTM.getD true = true
    · rw [if_pos hen]
      unfold UTMTracker.initializeUTMTracking
      by_cases hw : w.env.windowPresent = false
      · rw [if_pos (Or.inl hw)]
        rfl
      · rw [if_neg (by simp [hw])]
        rw [if_neg (by rw [hz]; simp)]
        rfl
    · rw [if_neg hen]
  · intro t' sm' w' h
    unfold UTMTracker.init at h ⊢
    by_cases hen : cfg.enableAutoUTM.getD true = true
    · rw [if_pos hen] at h
      cases hrun : UTMTracker.initializeUTMTracking
          { hasStorage := true, enabled := cfg.enableAutoUTM.getD true }
          sm w with
      | ok p =>
        obtain ⟨sm1, w1⟩ := p
        rw [hrun] at h
        simp only [Except.map] at h
        cases h
        rw [if_pos hen]
        rw [(initializeUTMTracking_ok_idem _ _ _ _ _ hrun).2]
        rfl
      | error e =>
        rw [hrun] at h
        simp only [Except.map] at h
        cases h
    · rw [if_neg hen] at h
      cases h
      rw [if_neg hen]

/-- Witness for C7 in the working browser world (empty query string). -/
theorem utm_init_preserves_without_params_witness :
    ((urlSearchParamsParse wBrowser.env.locationSearch).filter
        (fun p => p.1.startsWith "utm_") = []) ∧
    UTMTracker.init { hasStorage := true, enabled := true } {}
      smOnMemory wBrowser =
      .ok ({ hasStorage := true, enabled := true }, smOnMemory, wBrowser) :=
  ⟨rfl, (utm_init_preserves_without_params
    { hasStorage := true, enabled := true } {} smOnMemory wBrowser).1 rfl⟩

/-! ## C4 — identifiers set during SSR survive hydration -/

/-- The C4 scenario: configure in SSR mode, set `\x7buserId:'u1'\x7d`,
then hydrate. -/
def ssrIdentifierScenario (tenantId : String) (w : World) :
    Except Unit (GrowcadoSDK × World) := do
  let (sdk1, w1) ← GrowcadoSDK.configure GrowcadoSDK.newSDK
    { tenantId := tenantId, ssrMode := some true } w
  let (sdk2, w2) ← sdk1.setCustomerIdentifiers [("userId", some "u1")] w1
  sdk2.hydrate w2

theorem CustomerIdentifierManager.getIdentifiers_stored
    (m : CustomerIdentifierManager) (sm : StorageManager) (w : World)
    (stored : String) (hm : m.hasStorage = true)
    (h : sm.getItem w "cxp_customer_identifiers" = some stored)
    (hne : stored ≠ "") (parsed : List (String × String))
    (hp : jsonParseFlatObj stored = some parsed) :
    m.getIdentifiers sm w =
      assocMergeOpt (parsed.map (fun p => (p.1, some p.2)))
        m.customerIdentifiers := by
  unfold CustomerIdentifierManager.getIdentifiers
  rw [hm, h]
  simp only [if_true, reduceIte]
  rw [if_pos hne, hp]

/-- The configuration held by the coordinator after the C4 scenario. -/
def c4FinalConfig : SDKConfig :=
  { tenantId := "tenant", baseURL := some "https://api.growcado.io/"
    enableAutoUTM := some true, enableReferrerTracking := some true
    storage := some .localStorage, ssrMode := some false
    hydrateOnMount := some true }

/-- The coordinator state after the C4 scenario. -/
def c4FinalSDK : GrowcadoSDK :=
  { config := some c4FinalConfig
    storageManager := some { storageType := .localStorage, memoryStorage := [] }
    utmTracker := { hasStorage := true, enabled := true }
    customerManager := { hasStorage := true, customerIdentifiers := [] }
    referrerTracker := { hasStorage := true, enabled := true } }

/-- The `localStorage` contents after the C4 scenario: the probe key
written and removed, then the serialized identifiers migrated in. -/
def c4FinalData (ls0 : List (String × String)) : List (String × String) :=
  assocInsert (assocRemove (assocInsert ls0 "growcado_test" "test")
    "growcado_test") "cxp_customer_identifiers"
    (jsonStringifyFlatObj [("userId", some "u1")])

/-- The browser environment of the C4 scenario. -/
def c4Env (dp : Bool) (href : String) : JSEnv :=
  { windowPresent := true, documentPresent := dp, locationSearch := ""
    locationHref := href, docReferrer := "", writeFails := fun _ => false }

/-- C4: after configuring with `ssrMode: true`, setting
`\x7buserId:'u1'\x7d` and hydrating in a browser world whose persistent
store accepts every write, the storage manager is on the persistent
backend, `localStorage` holds the serialized identifiers under
`cxp_customer_identifiers`, and `getIdentifiers()` still returns the
identifier — for any prior `localStorage` contents, any page URL and
whether or not a `document` exists. -/
theorem ssr_identifiers_survive_hydration (dp : Bool) (href : String)
    (ls0 : List (String × String)) :
    ssrIdentifierScenario "tenant"
        { env := c4Env dp href, localStorageData := ls0 } =
      .ok (c4FinalSDK,
        { env := c4Env dp href, localStorageData := c4FinalData ls0 }) ∧
    c4FinalSDK.storageManager =
      some { storageType := .localStorage, memoryStorage := [] } ∧
    domLsGetItem { env := c4Env dp href, localStorageData := c4FinalData ls0 }
        "cxp_customer_identifiers" =
      some (jsonStringifyFlatObj [("userId", some "u1")]) ∧
    c4FinalSDK.getIdentifiers
        { env := c4Env dp href, localStorageData := c4FinalData ls0 } =
      [("userId", some "u1")] := by
  have hlook : StorageManager.getItem
      { storageType := .localStorage, memoryStorage := [] }
      { env := c4Env dp href, localStorageData := c4FinalData ls0 }
      "cxp_customer_identifiers" =
      some (jsonStringifyFlatObj [("userId", some "u1")]) :=
    assocLookup_insert _ _ _
  refine ⟨?_, rfl, assocLookup_insert _ _ _, ?_⟩
  · cases dp with
    | false => rfl
    | true => rfl
  · show CustomerIdentifierManager.getIdentifiers
      { hasStorage := true, customerIdentifiers := [] }
      { storageType := .localStorage, memoryStorage := [] }
      { env := c4Env dp href, localStorageData := c4FinalData ls0 } =
      [("userId", some "u1")]
    rw [CustomerIdentifierManager.getIdentifiers_stored _ _ _ _ rfl hlook
      (by decide) [("userId", "u1")] rfl]
    rfl

/-! ## C1 — UTM parameter round-trip

The round trip `setUTMParameters` → `getUTMParameters` is analysed via
the host-primitive models: what `encodeURIComponent` emits, how
`URLSearchParams` splits and form-url-decodes it, and the extra
`decodeURIComponent` the tracker applies to each value. -/

/-- Every Unicode scalar value is below `0x110000` and outside the
surrogate range. -/
theorem char_toNat_valid (c : Char) :
    c.toNat < 1114112 ∧ ¬(55296 ≤ c.toNat ∧ c.toNat < 57344) := by
  have h := c.valid
  unfold UInt32.isValidChar Nat.isValidChar at h
  simp only [Char.toNat]
  omega

/-- Characters left unescaped by `encodeURIComponent` are ASCII and are
none of `%`, `&`, `=`, `+`, `?`. -/
theorem uriUnreserved_facts (c : Char) (h : uriUnreserved c = true) :
    c.toNat < 128 ∧ c.toNat ≠ 37 ∧ c.toNat ≠ 38 ∧ c.toNat ≠ 61 ∧
      c.toNat ≠ 43 ∧ c.toNat ≠ 63 := by
  unfold uriUnreserved at h
  simp only [Bool.or_eq_true, decide_eq_true_eq] at h
  rcases h with h | h | h | h | h | h | h | h | h | h | h | h
  · omega
  · omega
  · omega
  all_goals subst h
  all_goals decide

/-- The `hexDigitChar` facts for nibbles. -/
theorem hexDigitChar_facts :
    ∀ n < 16, (hexDigitChar n).toNat < 128 ∧ (hexDigitChar n).toNat ≠ 37 ∧
      (hexDigitChar n).toNat ≠ 38 ∧ (hexDigitChar n).toNat ≠ 61 ∧
      (hexDigitChar n).toNat ≠ 43 ∧ (hexDigitChar n).toNat ≠ 63 ∧
      hexVal (hexDigitChar n) = some n := by
  decide

/-- UTF-8 bytes are below 256. -/
theorem utf8EncodeChar_lt_256 (c : Char) :
    ∀ b ∈ utf8EncodeChar c, b < 256 := by
  intro b hb
  obtain ⟨hv, -⟩ := char_toNat_valid c
  unfold utf8EncodeChar at hb
  by_cases h1 : c.toNat < 128
  · simp only [h1, if_true, reduceIte, List.mem_singleton] at hb
    omega
  · simp only [h1, if_false, reduceIte] at hb
    by_cases h2 : c.toNat < 2048
    · simp only [h2, if_true, reduceIte, List.mem_cons,
        List.mem_singleton, List.not_mem_nil, or_false] at hb
      rcases hb with hb | hb <;> omega
    · simp only [h2, if_false, reduceIte] at hb
      by_cases h3 : c.toNat < 65536
      · simp only [h3, if_true, reduceIte, List.mem_cons,
          List.not_mem_nil, or_false] at hb
        rcases hb with hb | hb | hb <;> omega
      · simp only [h3, if_false, reduceIte, List.mem_cons,
          List.not_mem_nil, or_false] at hb
        rcases hb with hb | hb | hb | hb <;> omega

/-- Characters emitted by `encodeURIComponent` are ASCII and never the
separator characters `&`, `=`, `+`, `?`. -/
theorem encodeURIComponentList_chars (s : List Char) (c' : Char)
    (h : c' ∈ encodeURIComponentList s) :
    c'.toNat < 128 ∧ c'.toNat ≠ 38 ∧ c'.toNat ≠ 61 ∧ c'.toNat ≠ 43 ∧
      c'.toNat ≠ 63 := by
  unfold encodeURIComponentList at h
  rw [List.mem_flatMap] at h
  obtain ⟨c, -, hc⟩ := h
  unfold uriEncodeChar at hc
  by_cases hu : uriUnreserved c = true
  · rw [if_pos hu, List.mem_singleton] at hc
    subst hc
    obtain ⟨h1, -, h2, h3, h4, h5⟩ := uriUnreserved_facts _ hu
    exact ⟨h1, h2, h3, h4, h5⟩
  · rw [if_neg hu, List.mem_flatMap] at hc
    obtain ⟨b, hb, hcb⟩ := hc
    have hb256 := utf8EncodeChar_lt_256 c b hb
    unfold percentByte at hcb
    rcases List.mem_cons.mp hcb with rfl | hcb'
    · decide
    rcases List.mem_cons.mp hcb' with rfl | hcb''
    · obtain ⟨h1, -, h2, h3, h4, h5, -⟩ :=
        hexDigitChar_facts (b / 16) (by omega)
      exact ⟨h1, h2, h3, h4, h5⟩
    rcases List.mem_cons.mp hcb'' with rfl | hcb3
    · obtain ⟨h1, -, h2, h3, h4, h5, -⟩ :=
        hexDigitChar_facts (b % 16) (by omega)
      exact ⟨h1, h2, h3, h4, h5⟩
    · cases hcb3

theorem utf8EncodeChar_ascii (c : Char) (h : c.toNat < 128) :
    utf8EncodeChar c = [c.toNat] := by
  unfold utf8EncodeChar
  rw [if_pos h]

theorem utf8EncodeList_ascii (l : List Char) (h : ∀ c ∈ l, c.toNat < 128) :
    utf8EncodeList l = l.map Char.toNat := by
  induction l with
  | nil => rfl
  | cons c rest ih =>
    unfold utf8EncodeList at ih ⊢
    rw [List.flatMap_cons, ih (fun x hx => h x (List.mem_cons_of_mem c hx)),
      utf8EncodeChar_ascii c (h c (List.mem_cons_self c rest))]
    rfl

theorem pdlFuel_cons_ne37 (b : Nat) (rest : List Nat) (f : Nat)
    (hb : b ≠ 37) :
    percentDecodeLenientFuel (f + 1) (b :: rest) =
      b :: percentDecodeLenientFuel f rest := by
  conv_lhs => unfold percentDecodeLenientFuel
  rw [if_neg hb]

theorem pdlFuel_escape (b : Nat) (rest : List Nat) (f : Nat)
    (hb : b < 256) :
    percentDecodeLenientFuel (f + 1)
      (37 :: (hexDigitChar (b / 16)).toNat ::
        (hexDigitChar (b % 16)).toNat :: rest) =
      b :: percentDecodeLenientFuel f rest := by
  obtain ⟨-, -, -, -, -, -, hv1⟩ := hexDigitChar_facts (b / 16) (by omega)
  obtain ⟨-, -, -, -, -, -, hv2⟩ := hexDigitChar_facts (b % 16) (by omega)
  conv_lhs => unfold percentDecodeLenientFuel
  rw [if_pos rfl]
  simp only [Char.ofNat_toNat, hv1, hv2]
  have : b / 16 * 16 + b % 16 = b := by omega
  rw [this]

theorem pdlFuel_nil (f : Nat) : percentDecodeLenientFuel f [] = [] := by
  cases f <;> rfl

/-- Decoding is insensitive to the exact fuel as long as it covers the
input length. -/
theorem pdlFuel_irrel (f1 : Nat) : ∀ (l : List Nat) (f2 : Nat),
    l.length ≤ f1 → l.length ≤ f2 →
    percentDecodeLenientFuel f1 l = percentDecodeLenientFuel f2 l := by
  induction f1 with
  | zero =>
    intro l f2 h1 _
    have : l = [] := List.eq_nil_of_length_eq_zero (by omega)
    subst this
    rw [pdlFuel_nil, pdlFuel_nil]
  | succ f ih =>
    intro l f2 h1 h2
    cases l with
    | nil => rw [pdlFuel_nil, pdlFuel_nil]
    | cons b rest =>
      obtain ⟨g, rfl⟩ : ∃ g, f2 = g + 1 :=
        ⟨f2 - 1, by simp at h2; omega⟩
      simp only [List.length_cons] at h1 h2
      conv_lhs => unfold percentDecodeLenientFuel
      conv_rhs => unfold percentDecodeLenientFuel
      by_cases hb : b = 37
      · rw [if_pos hb, if_pos hb]
        cases rest with
        | nil =>
          show 37 :: percentDecodeLenientFuel f [] =
            37 :: percentDecodeLenientFuel g []
          rw [pdlFuel_nil, pdlFuel_nil]
        | cons c1 rest' =>
          cases rest' with
          | nil =>
            simp only [List.length_cons, List.length_nil] at h1 h2
            show 37 :: percentDecodeLenientFuel f [c1] =
              37 :: percentDecodeLenientFuel g [c1]
            rw [ih [c1] g (by simp; omega) (by simp; omega)]
          | cons c2 rest2 =>
            simp only [List.length_cons] at h1 h2
            cases hx1 : hexVal (Char.ofNat c1) with
            | some h1v =>
              cases hx2 : hexVal (Char.ofNat c2) with
              | some h2v =>
                simp only [hx1, hx2]
                rw [ih rest2 g (by omega) (by omega)]
              | none =>
                simp only [hx1, hx2]
                rw [ih (c1 :: c2 :: rest2) g (by simp; omega)
                  (by simp; omega)]
            | none =>
              simp only [hx1]
              rw [ih (c1 :: c2 :: rest2) g (by simp; omega)
                (by simp; omega)]
      · rw [if_neg hb, if_neg hb]
        rw [ih rest g (by omega) (by omega)]

theorem pdlFuel_escaped_bytes (bs : List Nat) (rest : List Nat) (fuel : Nat)
    (h256 : ∀ b ∈ bs, b < 256)
    (hfuel : 3 * bs.length + rest.length ≤ fuel) :
    percentDecodeLenientFuel fuel
      ((bs.flatMap percentByte).map Char.toNat ++ rest) =
      bs ++ percentDecodeLenientFuel (fuel - bs.length) rest := by
  induction bs generalizing fuel with
  | nil => simp
  | cons b bs' ih =>
    simp only [List.length_cons] at hfuel
    obtain ⟨f, rfl⟩ : ∃ f, fuel = f + 1 := ⟨fuel - 1, by omega⟩
    rw [List.flatMap_cons, List.map_append, List.append_assoc]
    show percentDecodeLenientFuel (f + 1)
      (37 :: (hexDigitChar (b / 16)).toNat ::
        (hexDigitChar (b % 16)).toNat ::
        ((bs'.flatMap percentByte).map Char.toNat ++ rest)) = _
    rw [pdlFuel_escape b _ f (h256 b (List.mem_cons_self b bs'))]
    rw [ih f (fun x hx => h256 x (List.mem_cons_of_mem b hx)) (by omega)]
    simp only [List.cons_append, List.length_cons]
    congr 3
    omega

/-- Decoding the encoded bytes of `s` followed by anything recovers `s`'s
UTF-8 bytes and proceeds to decode the remainder canonically. -/
theorem pdlFuel_encoded (s : List Char) (rest : List Nat) (fuel : Nat)
    (hfuel : ((encodeURIComponentList s).map Char.toNat ++ rest).length ≤
      fuel) :
    percentDecodeLenientFuel fuel
      ((encodeURIComponentList s).map Char.toNat ++ rest) =
      utf8EncodeList s ++ percentDecodeLenientFuel rest.length rest := by
  induction s generalizing fuel with
  | nil =>
    simp only [encodeURIComponentList, List.flatMap_nil, List.map_nil,
      List.nil_append, List.length_nil] at hfuel ⊢
    show percentDecodeLenientFuel fuel rest = _
    exact pdlFuel_irrel fuel rest rest.length hfuel le_rfl
  | cons c s' ih =>
    have hsplit : encodeURIComponentList (c :: s') =
        uriEncodeChar c ++ encodeURIComponentList s' := rfl
    rw [hsplit] at hfuel ⊢
    rw [List.map_append, List.append_assoc] at hfuel ⊢
    rw [List.length_append, List.length_map] at hfuel
    show percentDecodeLenientFuel fuel
      ((uriEncodeChar c).map Char.toNat ++
        ((encodeURIComponentList s').map Char.toNat ++ rest)) =
      utf8EncodeList (c :: s') ++ _
    have hienc : utf8EncodeList (c :: s') =
        utf8EncodeChar c ++ utf8EncodeList s' := rfl
    rw [hienc, List.append_assoc]
    unfold uriEncodeChar at hfuel ⊢
    by_cases hu : uriUnreserved c = true
    · rw [if_pos hu] at hfuel ⊢
      obtain ⟨hA, h37, -⟩ := uriUnreserved_facts c hu
      obtain ⟨f, rfl⟩ : ∃ f, fuel = f + 1 :=
        ⟨fuel - 1, by simp at hfuel; omega⟩
      simp only [List.map_cons, List.map_nil, List.cons_append,
        List.nil_append, List.length_cons, List.length_nil] at hfuel ⊢
      rw [pdlFuel_cons_ne37 _ _ _ h37]
      rw [ih f (by simp only [List.length_append, List.length_map]
        at hfuel ⊢; omega)]
      rw [utf8EncodeChar_ascii c hA]
      rfl
    · rw [if_neg hu] at hfuel ⊢
      have hlen3 : ((utf8EncodeChar c).flatMap percentByte).length =
          3 * (utf8EncodeChar c).length := by
        induction utf8EncodeChar c with
        | nil => rfl
        | cons b bs ihb =>
          simp only [List.flatMap_cons, List.length_append, ihb,
            List.length_cons]
          unfold percentByte
          simp only [List.length_cons, List.length_nil]
          omega
      rw [pdlFuel_escaped_bytes (utf8EncodeChar c) _ fuel
        (utf8EncodeChar_lt_256 c)
        (by rw [hlen3] at hfuel
            simp only [List.length_append, List.length_map] at hfuel ⊢
            omega)]
      rw [ih (fuel - (utf8EncodeChar c).length)
        (by rw [hlen3] at hfuel
            simp only [List.length_append, List.length_map] at hfuel ⊢
            omega)]

/-- Lenient percent-decoding undoes `encodeURIComponent` at the byte
level, yielding the original string's UTF-8 bytes. -/
theorem percentDecodeLenient_encoded (s : List Char) :
    percentDecodeLenient ((encodeURIComponentList s).map Char.toNat) =
      utf8EncodeList s := by
  unfold percentDecodeLenient
  conv_lhs =>
    rw [← List.append_nil ((encodeURIComponentList s).map Char.toNat)]
  rw [pdlFuel_encoded s [] _ (by rw [List.append_nil])]
  rw [pdlFuel_nil, List.append_nil]

/-- The `utf8DecodeStep` recognises exactly the encoding of one scalar value
at the head of the byte stream. -/
theorem utf8DecodeStep_encodeChar (c : Char) (rest : List Nat) :
    utf8DecodeStep (utf8EncodeChar c ++ rest) =
      some (c.toNat, (utf8EncodeChar c).length) := by
  obtain ⟨hlt, hsur⟩ := char_toNat_valid c
  unfold utf8EncodeChar
  by_cases h1 : c.toNat < 128
  · rw [if_pos h1]
    simp only [List.cons_append, List.nil_append, List.length_cons,
      List.length_nil]
    unfold utf8DecodeStep
    simp only []
    rw [if_pos h1]
  · rw [if_neg h1]
    by_cases h2 : c.toNat < 2048
    · rw [if_pos h2]
      simp only [List.cons_append, List.nil_append, List.length_cons,
        List.length_nil]
      unfold utf8DecodeStep
      simp only []
      rw [if_neg (by omega), if_pos (by constructor <;> omega)]
      rw [if_pos (by simp only [isCont, decide_eq_true_eq]; omega)]
      have : (192 + c.toNat / 64 - 192) * 64 + (128 + c.toNat % 64 - 128) =
          c.toNat := by omega
      rw [this]
    · rw [if_neg h2]
      by_cases h3 : c.toNat < 65536
      · rw [if_pos h3]
        simp only [List.cons_append, List.nil_append, List.length_cons,
          List.length_nil]
        unfold utf8DecodeStep
        simp only []
        rw [if_neg (by omega), if_neg (by rintro ⟨ha, hb⟩; omega),
          if_pos (by constructor <;> omega)]
        rw [if_pos (by
          refine ⟨by simp only [isCont, decide_eq_true_eq]; omega,
            by simp only [isCont, decide_eq_true_eq]; omega, ?_, ?_⟩
          · by_cases he : c.toNat / 4096 = 0
            · exact Or.inr (by omega)
            · exact Or.inl (by omega)
          · by_cases he : c.toNat / 4096 = 13
            · exact Or.inr (by omega)
            · exact Or.inl (by omega))]
        have : (224 + c.toNat / 4096 - 224) * 4096 +
            (128 + c.toNat / 64 % 64 - 128) * 64 +
            (128 + c.toNat % 64 - 128) = c.toNat := by omega
        rw [this]
      · rw [if_neg h3]
        simp only [List.cons_append, List.nil_append, List.length_cons,
          List.length_nil]
        unfold utf8DecodeStep
        simp only []
        rw [if_neg (by omega), if_neg (by rintro ⟨ha, hb⟩; omega),
          if_neg (by rintro ⟨ha, hb⟩; omega),
          if_pos (by constructor <;> omega)]
        rw [if_pos (by
          refine ⟨by simp only [isCont, decide_eq_true_eq]; omega,
            by simp only [isCont, decide_eq_true_eq]; omega,
            by simp only [isCont, decide_eq_true_eq]; omega, ?_, ?_⟩
          · by_cases he : c.toNat / 262144 = 0
            · exact Or.inr (by omega)
            · exact Or.inl (by omega)
          · by_cases he : c.toNat / 262144 = 4
            · exact Or.inr (by omega)
            · exact Or.inl (by omega))]
        have : (240 + c.toNat / 262144 - 240) * 262144 +
            (128 + c.toNat / 4096 % 64 - 128) * 4096 +
            (128 + c.toNat / 64 % 64 - 128) * 64 +
            (128 + c.toNat % 64 - 128) = c.toNat := by omega
        rw [this]

theorem udrFuel_nil (f : Nat) : utf8DecodeReplaceFuel f [] = [] := by
  cases f <;> rfl

/-- Replacement decoding undoes UTF-8 encoding: one character at a time,
with any sufficient fuel. -/
theorem udrFuel_encoded (s : List Char) (fuel : Nat)
    (hfuel : (utf8EncodeList s).length ≤ fuel) :
    utf8DecodeReplaceFuel fuel (utf8EncodeList s) = s := by
  induction s generalizing fuel with
  | nil =>
    show utf8DecodeReplaceFuel fuel [] = []
    exact udrFuel_nil fuel
  | cons c s' ih =>
    have hsplit : utf8EncodeList (c :: s') =
        utf8EncodeChar c ++ utf8EncodeList s' := rfl
    rw [hsplit] at hfuel ⊢
    have hne : utf8EncodeChar c ≠ [] := by
      unfold utf8EncodeChar
      by_cases h1 : c.toNat < 128
      · simp [h1]
      · by_cases h2 : c.toNat < 2048
        · simp [h1, h2]
        · by_cases h3 : c.toNat < 65536 <;> simp [h1, h2, h3]
    obtain ⟨b0, bs, hb⟩ : ∃ b0 bs, utf8EncodeChar c = b0 :: bs := by
      cases hc : utf8EncodeChar c with
      | nil => exact absurd hc hne
      | cons x xs => exact ⟨x, xs, rfl⟩
    obtain ⟨f, rfl⟩ : ∃ f, fuel = f + 1 := by
      rw [hb] at hfuel
      exact ⟨fuel - 1, by simp at hfuel; omega⟩
    rw [hb, List.cons_append]
    conv_lhs => unfold utf8DecodeReplaceFuel
    have hstep := utf8DecodeStep_encodeChar c (utf8EncodeList s')
    rw [hb, List.cons_append] at hstep
    rw [hstep]
    simp only [hb, List.length_cons, Nat.add_sub_cancel]
    rw [List.drop_left, Char.ofNat_toNat]
    have hrec : (utf8EncodeList s').length ≤ f := by
      simp only [hb, List.length_cons, List.length_append] at hfuel
      omega
    rw [ih f hrec]

theorem plusToSpace_of_no_plus (l : List Char) (h : ∀ c ∈ l, c ≠ '+') :
    plusToSpace l = l := by
  induction l with
  | nil => rfl
  | cons c rest ih =>
    unfold plusToSpace at ih ⊢
    rw [List.map_cons, if_neg (h c (List.mem_cons_self c rest)),
      ih (fun x hx => h x (List.mem_cons_of_mem c hx))]

/-- Form-url-decoding undoes `encodeURIComponent` exactly. -/
theorem formUrlDecode_encode (s : String) :
    formUrlDecode (encodeURIComponent s) = s := by
  unfold formUrlDecode encodeURIComponent
  show (⟨utf8DecodeReplace (percentDecodeLenient (utf8EncodeList
    (plusToSpace (encodeURIComponentList s.data))))⟩ : String) = s
  rw [plusToSpace_of_no_plus _ (fun c hc => by
    intro hplus
    obtain ⟨-, -, -, h43, -⟩ := encodeURIComponentList_chars s.data c hc
    rw [hplus] at h43
    exact h43 rfl)]
  rw [utf8EncodeList_ascii _ (fun c hc =>
    (encodeURIComponentList_chars s.data c hc).1)]
  rw [percentDecodeLenient_encoded s.data]
  unfold utf8DecodeReplace
  rw [udrFuel_encoded s.data _ le_rfl]

theorem splitOnChar_no_sep (sep : Char) (cs : List Char)
    (h : sep ∉ cs) : splitOnChar sep cs = [cs] := by
  induction cs with
  | nil => rfl
  | cons c rest ih =>
    unfold splitOnChar
    rw [List.mem_cons, not_or] at h
    rw [if_neg (fun he => h.1 he.symm), ih h.2]

theorem splitOnChar_append_sep (sep : Char) (a b : List Char)
    (h : sep ∉ a) : splitOnChar sep (a ++ sep :: b) =
      a :: splitOnChar sep b := by
  induction a with
  | nil =>
    show splitOnChar sep (sep :: b) = [] :: splitOnChar sep b
    conv_lhs => unfold splitOnChar
    rw [if_pos rfl]
  | cons c rest ih =>
    rw [List.mem_cons, not_or] at h
    show splitOnChar sep (c :: (rest ++ sep :: b)) = _
    conv_lhs => unfold splitOnChar
    rw [ih h.2, if_neg (fun he => h.1 he.symm)]

theorem splitFirst_no_sep (sep : Char) (cs : List Char) (h : sep ∉ cs) :
    splitFirst sep cs = (cs, []) := by
  induction cs with
  | nil => rfl
  | cons c rest ih =>
    rw [List.mem_cons, not_or] at h
    unfold splitFirst
    rw [if_neg (fun he => h.1 he.symm), ih h.2]

theorem splitFirst_append_sep (sep : Char) (a b : List Char)
    (h : sep ∉ a) : splitFirst sep (a ++ sep :: b) = (a, b) := by
  induction a with
  | nil =>
    show splitFirst sep (sep :: b) = ([], b)
    conv_lhs => unfold splitFirst
    rw [if_pos rfl]
  | cons c rest ih =>
    rw [List.mem_cons, not_or] at h
    show splitFirst sep (c :: (rest ++ sep :: b)) = _
    conv_lhs => unfold splitFirst
    rw [ih h.2, if_neg (fun he => h.1 he.symm)]

theorem decodeURIComponentFuel_no_pct (cs : List Char) :
    ∀ fuel : Nat, cs.length ≤ fuel → '%' ∉ cs →
    decodeURIComponentFuel fuel cs = some cs := by
  induction cs with
  | nil =>
    intro fuel _ _
    cases fuel <;> rfl
  | cons c rest ih =>
    intro fuel hfuel hpct
    rw [List.mem_cons, not_or] at hpct
    obtain ⟨f, rfl⟩ : ∃ f, fuel = f + 1 :=
      ⟨fuel - 1, by simp at hfuel; omega⟩
    conv_lhs => unfold decodeURIComponentFuel
    rw [if_pos (fun he => hpct.1 he.symm)]
    rw [ih f (by simp at hfuel; omega) hpct.2]
    rfl

/-- The `decodeURIComponent` is the identity on percent-free strings (and
does not throw). -/
theorem decodeURIComponentOpt_no_pct (v : String) (h : '%' ∉ v.data) :
    decodeURIComponentOpt v = some v := by
  unfold decodeURIComponentOpt
  rw [decodeURIComponentFuel_no_pct v.data v.data.length le_rfl h]
  rfl

theorem utmEncodePair_data (k v : String) :
    (utmEncodePair k v).data =
      (encodeURIComponent k).data ++ '=' :: (encodeURIComponent v).data := by
  unfold utmEncodePair
  rw [String.data_append, String.data_append, List.append_assoc]
  rfl

theorem utmEncodePair_chars (k v : String) (c : Char)
    (h : c ∈ (utmEncodePair k v).data) :
    c ≠ '&' ∧ c ≠ '?' ∧ c ≠ '+' := by
  rw [utmEncodePair_data] at h
  have hchar : ∀ (s : String), c ∈ (encodeURIComponent s).data →
      c ≠ '&' ∧ c ≠ '?' ∧ c ≠ '+' := by
    intro s hc
    obtain ⟨-, h38, -, h43, h63⟩ :=
      encodeURIComponentList_chars s.data c hc
    refine ⟨fun he => h38 (by rw [he]; rfl),
      fun he => h63 (by rw [he]; rfl), fun he => h43 (by rw [he]; rfl)⟩
  rcases List.mem_append.mp h with hc | hc
  · exact hchar k hc
  · rcases List.mem_cons.mp hc with rfl | hc'
    · exact ⟨by decide, by decide, by decide⟩
    · exact hchar v hc'

theorem utmEncodePair_data_ne_nil (k v : String) :
    (utmEncodePair k v).data ≠ [] := by
  rw [utmEncodePair_data]
  intro heq
  have : '=' ∈ (encodeURIComponent k).data ++
      '=' :: (encodeURIComponent v).data :=
    List.mem_append_right _ (List.mem_cons_self _ _)
  rw [heq] at this
  cases this

theorem joinSep_data_chars (sep : String) (l : List String) (c : Char)
    (h : c ∈ (joinSep sep l).data) :
    (∃ s ∈ l, c ∈ s.data) ∨ c ∈ sep.data := by
  induction l with
  | nil => cases h
  | cons s rest ih =>
    cases rest with
    | nil => exact Or.inl ⟨s, List.mem_singleton.mpr rfl, h⟩
    | cons s1 t =>
      have hd : (joinSep sep (s :: s1 :: t)).data =
          s.data ++ sep.data ++ (joinSep sep (s1 :: t)).data := by
        show (s ++ sep ++ joinSep sep (s1 :: t)).data = _
        rw [String.data_append, String.data_append]
      rw [hd] at h
      rcases List.mem_append.mp h with h' | h'
      · rcases List.mem_append.mp h' with h'' | h''
        · exact Or.inl ⟨s, List.mem_cons_self s _, h''⟩
        · exact Or.inr h''
      · rcases ih h' with ⟨s', hs', hc'⟩ | h''
        · exact Or.inl ⟨s', List.mem_cons_of_mem s hs', hc'⟩
        · exact Or.inr h''

theorem splitOnChar_joinSep_data (l : List String) (hl : l ≠ [])
    (h : ∀ s ∈ l, '&' ∉ s.data) :
    splitOnChar '&' (joinSep "&" l).data = l.map String.data := by
  induction l with
  | nil => exact absurd rfl hl
  | cons s rest ih =>
    cases rest with
    | nil =>
      show splitOnChar '&' s.data = [s.data]
      exact splitOnChar_no_sep '&' s.data (h s (List.mem_singleton.mpr rfl))
    | cons s1 t =>
      have hd : (joinSep "&" (s :: s1 :: t)).data =
          s.data ++ '&' :: (joinSep "&" (s1 :: t)).data := by
        show (s ++ "&" ++ joinSep "&" (s1 :: t)).data = _
        rw [String.data_append, String.data_append, List.append_assoc]
        rfl
      rw [hd]
      rw [splitOnChar_append_sep '&' s.data _
        (h s (List.mem_cons_self s _))]
      rw [ih (by simp) (fun x hx => h x (List.mem_cons_of_mem s hx))]
      rfl

/-- The `URLSearchParams` parsing recovers exactly the encoded pairs produced
by the tracker's encoding. -/
theorem urlSearchParamsParse_join_encoded (m : List (String × String))
    (hm : m ≠ []) :
    urlSearchParamsParse
      (joinSep "&" (m.map (fun p => utmEncodePair p.1 p.2))) = m := by
  set strs := m.map (fun p => utmEncodePair p.1 p.2) with hstrs
  have hstrs_ne : strs ≠ [] := by
    rw [hstrs]
    simp [hm]
  have hseg_of_mem : ∀ s ∈ strs, ∃ p ∈ m, s = utmEncodePair p.1 p.2 := by
    intro s hs
    rw [hstrs] at hs
    obtain ⟨p, hp, rfl⟩ := List.mem_map.mp hs
    exact ⟨p, hp, rfl⟩
  have hnoamp : ∀ s ∈ strs, '&' ∉ s.data := by
    intro s hs hc
    obtain ⟨p, -, rfl⟩ := hseg_of_mem s hs
    exact (utmEncodePair_chars _ _ _ hc).1 rfl
  have hq : (joinSep "&" strs).data.head? ≠ some '?' := by
    intro hhead
    have hmem : '?' ∈ (joinSep "&" strs).data := by
      cases hl : (joinSep "&" strs).data with
      | nil => rw [hl] at hhead; cases hhead
      | cons x xs =>
        rw [hl] at hhead
        simp only [List.head?_cons, Option.some.injEq] at hhead
        subst hhead
        exact List.mem_cons_self _ _
    rcases joinSep_data_chars "&" strs '?' hmem with ⟨s, hs, hc⟩ | hc
    · obtain ⟨p, -, rfl⟩ := hseg_of_mem s hs
      exact (utmEncodePair_chars _ _ _ hc).2.1 rfl
    · revert hc
      decide
  unfold urlSearchParamsParse
  simp only [if_neg hq]
  rw [splitOnChar_joinSep_data strs hstrs_ne hnoamp]
  rw [List.filter_eq_self.mpr (by
    intro a ha
    obtain ⟨s, hs, rfl⟩ := List.mem_map.mp ha
    obtain ⟨p, -, rfl⟩ := hseg_of_mem s hs
    simpa using utmEncodePair_data_ne_nil p.1 p.2)]
  rw [hstrs, List.map_map, List.map_map]
  conv_rhs => rw [← List.map_id m]
  refine List.map_congr_left ?_
  intro p _
  simp only [Function.comp_apply, id_eq]
  rw [utmEncodePair_data, splitFirst_append_sep '=' _ _ (by
    intro hc
    obtain ⟨-, -, h61, -⟩ := encodeURIComponentList_chars p.1.data '=' hc
    exact h61 rfl)]
  show (formUrlDecode (encodeURIComponent p.1),
    formUrlDecode (encodeURIComponent p.2)) = p
  rw [formUrlDecode_encode, formUrlDecode_encode]

theorem setUTM_filterMap_encodes (m : List (String × String))
    (hval : ∀ p ∈ m, p.2 ≠ "") :
    (m.map (fun p => (p.1, some p.2))).filterMap utmEncodeEntry =
      m.map (fun p => utmEncodePair p.1 p.2) := by
  induction m with
  | nil => rfl
  | cons p rest ih =>
    rw [List.map_cons, List.filterMap_cons, List.map_cons]
    rw [show utmEncodeEntry (p.1, some p.2) =
        some (utmEncodePair p.1 p.2) from
      if_pos (hval p (List.mem_cons_self p rest))]
    rw [ih (fun q hq => hval q (List.mem_cons_of_mem p hq))]

theorem assocLookup_append (a b : List (String × String)) (k : String) :
    assocLookup (a ++ b) k =
      match assocLookup a k with
      | some v => some v
      | none => assocLookup b k := by
  induction a with
  | nil => rfl
  | cons p rest ih =>
    obtain ⟨k', v'⟩ := p
    rw [List.cons_append, assocLookup_cons, assocLookup_cons]
    by_cases h : k' = k
    · rw [if_pos h, if_pos h]
    · rw [if_neg h, if_neg h, ih]

theorem assocInsert_of_lookup_none (l : List (String × String))
    (k v : String) (h : assocLookup l k = none) :
    assocInsert l k v = l ++ [(k, v)] := by
  induction l with
  | nil => rfl
  | cons p rest ih =>
    obtain ⟨k', v'⟩ := p
    rw [assocLookup_cons] at h
    by_cases hk : k' = k
    · rw [if_pos hk] at h
      cases h
    · rw [if_neg hk] at h
      show assocInsert ((k', v') :: rest) k v = _
      unfold assocInsert
      rw [if_neg hk, ih h]
      rfl

theorem foldl_assocInsert_fresh (l : List (String × String)) :
    ∀ acc : List (String × String),
    (l.map Prod.fst).Nodup → (∀ p ∈ l, assocLookup acc p.1 = none) →
    l.foldl (fun a p => assocInsert a p.1 p.2) acc = acc ++ l := by
  induction l with
  | nil =>
    intro acc _ _
    simp
  | cons p rest ih =>
    intro acc hnd hfresh
    obtain ⟨k0, v0⟩ := p
    simp only [List.map_cons, List.nodup_cons] at hnd
    rw [List.foldl_cons]
    rw [assocInsert_of_lookup_none acc k0 v0
      (hfresh (k0, v0) (List.mem_cons_self _ _))]
    rw [ih (acc ++ [(k0, v0)]) hnd.2 (by
      intro q hq
      rw [assocLookup_append]
      rw [hfresh q (List.mem_cons_of_mem _ hq)]
      rw [assocLookup_cons]
      rw [if_neg (by
        intro he
        exact hnd.1 (he ▸ (List.mem_map_of_mem Prod.fst hq)))]
      rfl)]
    rw [List.append_assoc]
    rfl

theorem getUTM_fold_decodes (l : List (String × String)) :
    ∀ acc : List (String × String),
    (∀ p ∈ l, '%' ∉ p.2.data) →
    l.foldlM utmDecodeStep acc =
      (.ok (l.foldl (fun a p => assocInsert a p.1 p.2) acc) :
        Except Unit (List (String × String))) := by
  induction l with
  | nil =>
    intro acc _
    rfl
  | cons p rest ih =>
    intro acc hpct
    rw [List.foldlM_cons]
    rw [show utmDecodeStep acc p = Except.ok (assocInsert acc p.1 p.2) by
      unfold utmDecodeStep
      rw [decodeURIComponentOpt_no_pct p.2
        (hpct p (List.mem_cons_self p rest))]]
    show rest.foldlM utmDecodeStep (assocInsert acc p.1 p.2) = _
    rw [ih (assocInsert acc p.1 p.2)
      (fun q hq => hpct q (List.mem_cons_of_mem p hq))]
    rw [List.foldl_cons]

/-- C1 amended: for a non-empty mapping with distinct keys and non-empty,
percent-free values, `setUTMParameters` followed by `getUTMParameters`
returns exactly the original mapping (keys in any Unicode alphabet
round-trip; the extra `decodeURIComponent` the tracker applies to values
is the identity precisely because the values contain no `%`). -/
theorem utm_roundtrip_percent_free (t : UTMTracker)
    (m : List (String × String)) (sm : StorageManager) (w : World)
    (sm' : StorageManager) (w' : World)
    (ht : t.hasStorage = true) (hm : m ≠ [])
    (hnd : (m.map Prod.fst).Nodup)
    (hval : ∀ p ∈ m, p.2 ≠ "")
    (hpct : ∀ p ∈ m, '%' ∉ p.2.data)
    (hset : t.setUTMParameters (m.map (fun p => (p.1, some p.2))) sm w =
      .ok (sm', w')) :
    t.getUTMParameters sm' w' = .ok (some m) := by
  unfold UTMTracker.setUTMParameters at hset
  rw [ht] at hset
  rw [if_neg (by decide)] at hset
  rw [setUTM_filterMap_encodes m hval] at hset
  rw [if_pos (by simp [hm])] at hset
  obtain ⟨hget, -, -⟩ := StorageManager.setItem_ok _ _ _ _ _ _ hset
  have hstored_ne : joinSep "&" (m.map (fun p => utmEncodePair p.1 p.2)) ≠
      "" := by
    obtain ⟨p0, m', rfl⟩ : ∃ p0 m', m = p0 :: m' := by
      cases m with
      | nil => exact absurd rfl hm
      | cons a b => exact ⟨a, b, rfl⟩
    intro hempty
    have hmem : '=' ∈ (joinSep "&"
        ((p0 :: m').map (fun p => utmEncodePair p.1 p.2))).data := by
      refine joinSep_mem_char "&" _ (utmEncodePair p0.1 p0.2) '=' ?_ ?_
      · rw [List.map_cons]
        exact List.mem_cons_self _ _
      · rw [utmEncodePair_data]
        exact List.mem_append_right _ (List.mem_cons_self _ _)
    rw [hempty] at hmem
    cases hmem
  unfold UTMTracker.getUTMParameters
  rw [ht]
  rw [if_neg (by decide)]
  rw [hget]
  show (if joinSep "&" (List.map (fun p => utmEncodePair p.1 p.2) m) = ""
    then Except.ok none
    else do
      let params ← List.foldlM utmDecodeStep []
        (urlSearchParamsParse
          (joinSep "&" (List.map (fun p => utmEncodePair p.1 p.2) m)))
      if params ≠ [] then Except.ok (some params) else Except.ok none) =
    Except.ok (some m)
  rw [if_neg hstored_ne]
  rw [urlSearchParamsParse_join_encoded m hm]
  show (m.foldlM utmDecodeStep ([] : List (String × String))).bind _ = _
  rw [getUTM_fold_decodes m [] hpct]
  rw [foldl_assocInsert_fresh m [] hnd (fun p _ => rfl)]
  show (if m ≠ [] then Except.ok (some ([] ++ m)) else Except.ok none) = _
  rw [if_pos (by simp [hm])]
  rw [List.nil_append]

/-- A UTM tracker holding a storage reference. -/
def utmWithStorage : UTMTracker := { hasStorage := true, enabled := true }

/-- C1 counterexample: for the mapping `\x7ba: "%41"\x7d` the round trip
returns `\x7ba: "A"\x7d` — the stored value is decoded once by
`URLSearchParams` and then a second time by the tracker's explicit
`decodeURIComponent`, so percent-encoding does not round-trip
losslessly. -/
theorem utm_roundtrip_counterexample :
    UTMTracker.setUTMParameters utmWithStorage [("a", some "%41")]
      smOnMemory wBrowser =
      .ok ({ storageType := .memory,
             memoryStorage := [("cxp_utm_params", "a=%2541")] }, wBrowser) ∧
    UTMTracker.getUTMParameters utmWithStorage
      { storageType := .memory,
        memoryStorage := [("cxp_utm_params", "a=%2541")] } wBrowser =
      .ok (some [("a", "A")]) ∧
    (some [("a", "A")] : Option (List (String × String))) ≠
      some [("a", "%41")] := by
  refine ⟨rfl, rfl, by decide⟩

/-- Witness for C1's amended theorem at the mapping
`\x7bsource: "news", medium: "email"\x7d` on the transient backend. -/
theorem utm_roundtrip_percent_free_witness :
    utmWithStorage.hasStorage = true ∧
    UTMTracker.setUTMParameters utmWithStorage
      [("source", some "news"), ("medium", some "email")] smOnMemory
      wBrowser =
      .ok ({ storageType := .memory,
             memoryStorage := [("cxp_utm_params", "source=news&medium=email")] },
        wBrowser) ∧
    UTMTracker.getUTMParameters utmWithStorage
      { storageType := .memory,
        memoryStorage := [("cxp_utm_params", "source=news&medium=email")] }
      wBrowser = .ok (some [("source", "news"), ("medium", "email")]) :=
  ⟨rfl, rfl,
    utm_roundtrip_percent_free utmWithStorage
      [("source", "news"), ("medium", "email")] smOnMemory wBrowser _ _
      rfl (by decide) (by decide) (by decide) (by decide) rfl⟩
